import Mathlib

/-!
# Verification of the CUDA flocking ("boids") simulation kernels

A shallow embedding of `src/kernel.cu` (the three simulation variants:
brute force, scattered uniform grid, coherent uniform grid) and proofs of
the specification claims about it.

Modelling conventions:
* Device float arithmetic is modelled by exact real arithmetic (`ℝ`).
  `glm::vec3` becomes the structure `Vec3`; `glm::length`/`glm::distance`
  use `Real.sqrt`, mirroring the source formulas exactly.
* Device buffers (C pointers) are modelled as total functions `ℤ → _`;
  each CUDA kernel guards its thread index with the same bound check as
  the source, and indices outside `[0, N)` are meaningless to every claim.
* The `thrust::sort_by_key` call is an *unstable* key sort; it is modelled
  relationally: `IsSortedArrangement` is exactly the postcondition of
  `§4.2` (the companion value array is a permutation of `[0, N)` that puts
  the keys in ascending order).  Step functions take the resulting
  permutation buffer `arr` as an argument.
* IEEE division of a finite value by `0.0` yields `Inf`/`NaN`, not a real
  number.  Where a claim is about division-by-zero behaviour we use
  `finishRulesChecked`, which returns `none` exactly when a rule count
  divisor is zero (the situation in which the C code would produce a
  non-finite value); the total-division form `finishRules` is used where
  the divisors are proved nonzero.
-/

noncomputable section

namespace Boids

/-! ## Simulation constants (`kernel.cu` lines 45-56, 168-177) -/

def rule1Distance : ℝ := 5
def rule2Distance : ℝ := 3
def rule3Distance : ℝ := 5

def rule1Scale : ℝ := 0.01
def rule2Scale : ℝ := 0.1
def rule3Scale : ℝ := 0.1

def maxSpeed : ℝ := 1

def scene_scale : ℝ := 100

/-! ## Vectors -/

/-- `glm::vec3` with exact real components. -/
@[ext]
structure Vec3 where
  x : ℝ
  y : ℝ
  z : ℝ

namespace Vec3

instance : Zero Vec3 := ⟨⟨0, 0, 0⟩⟩
instance : Add Vec3 := ⟨fun a b => ⟨a.x + b.x, a.y + b.y, a.z + b.z⟩⟩
instance : Sub Vec3 := ⟨fun a b => ⟨a.x - b.x, a.y - b.y, a.z - b.z⟩⟩
instance : Neg Vec3 := ⟨fun a => ⟨-a.x, -a.y, -a.z⟩⟩
/-- vector--scalar product `v * s` (as in `rule2 * rule2Scale`). -/
instance : HMul Vec3 ℝ Vec3 := ⟨fun v s => ⟨v.x * s, v.y * s, v.z * s⟩⟩
/-- vector--scalar division `v / s` (as in `rule1 /= rule1Cnt`). -/
instance : HDiv Vec3 ℝ Vec3 := ⟨fun v s => ⟨v.x / s, v.y / s, v.z / s⟩⟩
/-- scalar action, used to state direction preservation. -/
instance : SMul ℝ Vec3 := ⟨fun s v => ⟨s * v.x, s * v.y, s * v.z⟩⟩

@[simp] theorem zero_x : (0 : Vec3).x = 0 := rfl
@[simp] theorem zero_y : (0 : Vec3).y = 0 := rfl
@[simp] theorem zero_z : (0 : Vec3).z = 0 := rfl
@[simp] theorem add_x (a b : Vec3) : (a + b).x = a.x + b.x := rfl
@[simp] theorem add_y (a b : Vec3) : (a + b).y = a.y + b.y := rfl
@[simp] theorem add_z (a b : Vec3) : (a + b).z = a.z + b.z := rfl
@[simp] theorem sub_x (a b : Vec3) : (a - b).x = a.x - b.x := rfl
@[simp] theorem sub_y (a b : Vec3) : (a - b).y = a.y - b.y := rfl
@[simp] theorem sub_z (a b : Vec3) : (a - b).z = a.z - b.z := rfl
@[simp] theorem mulS_x (v : Vec3) (s : ℝ) : (v * s).x = v.x * s := rfl
@[simp] theorem mulS_y (v : Vec3) (s : ℝ) : (v * s).y = v.y * s := rfl
@[simp] theorem mulS_z (v : Vec3) (s : ℝ) : (v * s).z = v.z * s := rfl
@[simp] theorem divS_x (v : Vec3) (s : ℝ) : (v / s).x = v.x / s := rfl
@[simp] theorem divS_y (v : Vec3) (s : ℝ) : (v / s).y = v.y / s := rfl
@[simp] theorem divS_z (v : Vec3) (s : ℝ) : (v / s).z = v.z / s := rfl
@[simp] theorem smul_x (s : ℝ) (v : Vec3) : (s • v).x = s * v.x := rfl
@[simp] theorem smul_y (s : ℝ) (v : Vec3) : (s • v).y = s * v.y := rfl
@[simp] theorem smul_z (s : ℝ) (v : Vec3) : (s • v).z = s * v.z := rfl
@[simp] theorem mk_x (a b c : ℝ) : (Vec3.mk a b c).x = a := rfl
@[simp] theorem mk_y (a b c : ℝ) : (Vec3.mk a b c).y = b := rfl
@[simp] theorem mk_z (a b c : ℝ) : (Vec3.mk a b c).z = c := rfl

/-- `glm::length v = sqrt (v.x² + v.y² + v.z²)`. -/
def len (v : Vec3) : ℝ := Real.sqrt (v.x ^ 2 + v.y ^ 2 + v.z ^ 2)

/-- `glm::distance a b = glm::length (a - b)`. -/
def dist (a b : Vec3) : ℝ := len (a - b)

theorem len_nonneg (v : Vec3) : 0 ≤ len v := Real.sqrt_nonneg _

theorem len_lt_iff (v : Vec3) {r : ℝ} (hr : 0 < r) :
    len v < r ↔ v.x ^ 2 + v.y ^ 2 + v.z ^ 2 < r ^ 2 :=
  Real.sqrt_lt' hr

theorem lt_len_iff (v : Vec3) {r : ℝ} (hr : 0 ≤ r) :
    r < len v ↔ r ^ 2 < v.x ^ 2 + v.y ^ 2 + v.z ^ 2 :=
  Real.lt_sqrt hr

theorem dist_lt_iff (a b : Vec3) {r : ℝ} (hr : 0 < r) :
    dist a b < r ↔ (a.x - b.x) ^ 2 + (a.y - b.y) ^ 2 + (a.z - b.z) ^ 2 < r ^ 2 :=
  len_lt_iff _ hr

@[simp] theorem dist_self (a : Vec3) : dist a a = 0 := by
  simp [dist, len]

theorem len_smul_of_nonneg {c : ℝ} (hc : 0 ≤ c) (v : Vec3) :
    len (c • v) = c * len v := by
  unfold len
  rw [show (c • v).x ^ 2 + (c • v).y ^ 2 + (c • v).z ^ 2
        = c ^ 2 * (v.x ^ 2 + v.y ^ 2 + v.z ^ 2) by simp; ring]
  rw [Real.sqrt_mul (sq_nonneg c), Real.sqrt_sq_eq_abs, abs_of_nonneg hc]

theorem len_pos_of_lt {r : ℝ} (hr : 0 ≤ r) {v : Vec3} (h : r < len v) : 0 < len v :=
  lt_of_le_of_lt hr h

end Vec3

/-! ## Grid parameters (`Boids::initSimulation`, lines 168-177).

`gridMinimum` starts as the zero vector (default-constructed `glm::vec3`)
and has `halfGridWidth` subtracted from each component.  The C cast
`(int)(scene_scale / gridCellWidth)` truncates a nonnegative float, i.e.
takes the floor. -/

def gridCellWidth : ℝ := 2 * max (max rule1Distance rule2Distance) rule3Distance
def halfSideCount : ℤ := ⌊scene_scale / gridCellWidth⌋ + 1
def gridSideCount : ℤ := 2 * halfSideCount
def gridCellCount : ℤ := gridSideCount * gridSideCount * gridSideCount
def gridInverseCellWidth : ℝ := 1 / gridCellWidth
def halfGridWidth : ℝ := gridCellWidth * (halfSideCount : ℝ)
def gridMinimum : Vec3 := ⟨0 - halfGridWidth, 0 - halfGridWidth, 0 - halfGridWidth⟩

theorem gridCellWidth_eq : gridCellWidth = 10 := by
  unfold gridCellWidth rule1Distance rule2Distance rule3Distance
  norm_num

theorem halfSideCount_eq : halfSideCount = 11 := by
  unfold halfSideCount scene_scale
  rw [gridCellWidth_eq]
  norm_num

theorem gridSideCount_eq : gridSideCount = 22 := by
  unfold gridSideCount; rw [halfSideCount_eq]; norm_num

theorem gridInverseCellWidth_eq : gridInverseCellWidth = 1 / 10 := by
  unfold gridInverseCellWidth; rw [gridCellWidth_eq]

theorem halfGridWidth_eq : halfGridWidth = 110 := by
  unfold halfGridWidth; rw [gridCellWidth_eq, halfSideCount_eq]; norm_num

theorem gridMinimum_x : gridMinimum.x = -110 := by
  unfold gridMinimum; rw [Vec3.mk_x, halfGridWidth_eq]; norm_num

theorem gridMinimum_y : gridMinimum.y = -110 := by
  unfold gridMinimum; rw [Vec3.mk_y, halfGridWidth_eq]; norm_num

theorem gridMinimum_z : gridMinimum.z = -110 := by
  unfold gridMinimum; rw [Vec3.mk_z, halfGridWidth_eq]; norm_num

/-! ## Index ranges -/

/-- the list `[a, a+1, ..., b-1]` of integers, i.e. the iterations of a C
loop `for (j = a; j < b; ++j)`. -/
def intRange (a b : ℤ) : List ℤ :=
  (List.range (b - a).toNat).map (fun k : ℕ => a + (k : ℤ))

theorem mem_intRange {a b i : ℤ} : i ∈ intRange a b ↔ a ≤ i ∧ i < b := by
  constructor
  · intro h
    rcases List.mem_map.mp h with ⟨k, hk, rfl⟩
    rw [List.mem_range] at hk
    omega
  · intro h
    refine List.mem_map.mpr ⟨(i - a).toNat, ?_, ?_⟩
    · rw [List.mem_range]; omega
    · omega

theorem intRange_nodup (a b : ℤ) : (intRange a b).Nodup :=
  List.Nodup.map (fun m n h => by omega) (List.nodup_range _)

/-! ## Cell start/end tables -/

/-- the `dev_gridCellStartIndices` / `dev_gridCellEndIndices` buffers. -/
structure CellTables where
  cellStart : ℤ → ℤ
  cellEnd : ℤ → ℤ

/-- `kernResetIntBuffer` (lines 390-395): set the first `C` entries of an
int buffer to `value`.  (Present in the source but never invoked by any
step function.) -/
def kernResetIntBuffer (C : ℤ) (value : ℤ) (buf : ℤ → ℤ) : ℤ → ℤ :=
  fun i => if 0 ≤ i ∧ i < C then value else buf i

/-- `gridIndex3Dto1D` (lines 361-363). -/
def gridIndex3Dto1D (x y z R : ℤ) : ℤ := x + y * R + z * R * R

/-- `glm::clamp` on floats: `min (max x lo) hi`. -/
def clampR (x lo hi : ℝ) : ℝ := min (max x lo) hi

/-- one axis of the cell-coordinate computation shared by
`kernComputeIndices` and both neighbor-search kernels:
`int(clamp((p - gridMin) * inverseCellWidth - 0.5, 0, gridResolution))`.
The C cast `int(·)` truncates toward zero; the operand is nonnegative
after the clamp, so it is the floor. -/
def gridCoordAxis (gmin p : ℝ) : ℤ :=
  ⌊clampR ((p - gmin) * gridInverseCellWidth - 0.5) 0 (gridSideCount : ℝ)⌋

/-- the 3-D cell coordinate of a position (lines 374-383 / 433-443). -/
def gridCoordOf (p : Vec3) : ℤ × ℤ × ℤ :=
  (gridCoordAxis gridMinimum.x p.x, gridCoordAxis gridMinimum.y p.y,
    gridCoordAxis gridMinimum.z p.z)

/-- the linear cell id of a position. -/
def cellIdOf (p : Vec3) : ℤ :=
  gridIndex3Dto1D (gridCoordOf p).1 (gridCoordOf p).2.1 (gridCoordOf p).2.2 gridSideCount

/-- `kernComputeIndices` (lines 365-386): writes the identity into
`indices` and the cell id into `gridIndices`, for every thread below `N`;
other entries keep the previous buffer contents. -/
def kernComputeIndices (N : ℤ) (pos : ℤ → Vec3) (indices0 gridIndices0 : ℤ → ℤ) :
    (ℤ → ℤ) × (ℤ → ℤ) :=
  (fun i => if 0 ≤ i ∧ i < N then i else indices0 i,
   fun i => if 0 ≤ i ∧ i < N then cellIdOf (pos i) else gridIndices0 i)

/-- the body of `kernIdentifyCellStartEnd` for one thread `i`
(lines 408-418): `curGrid = sk i`; `isStart` when `i` opens a run of
equal keys, `isEnd` when it closes one. -/
def identifyStep (N : ℤ) (sk : ℤ → ℤ) (acc : CellTables) (i : ℤ) : CellTables :=
  { cellStart :=
      if i = 0 ∨ sk (i - 1) ≠ sk i then Function.update acc.cellStart (sk i) i
      else acc.cellStart,
    cellEnd :=
      if i + 1 = N ∨ sk (i + 1) ≠ sk i then Function.update acc.cellEnd (sk i) (i + 1)
      else acc.cellEnd }

/-- `kernIdentifyCellStartEnd` (lines 397-419), rendered as a sequential
fold over the thread indices.  On a key array sorted ascending each cell
receives at most one start write and one end write, so the fold order is
immaterial and this is the parallel kernel's semantics. -/
def kernIdentifyCellStartEnd (N : ℤ) (sk : ℤ → ℤ) (t : CellTables) : CellTables :=
  (intRange 0 N).foldl (identifyStep N sk) t

/-! ## The three flocking rules -/

/-- the five accumulators of the rule loop
(`rule1`, `rule1Cnt`, `rule2`, `rule3`, `rule3Cnt`).
The counters are `float`s in the source, hence `ℝ` here. -/
structure RuleAcc where
  r1 : Vec3
  c1 : ℝ
  r2 : Vec3
  r3 : Vec3
  c3 : ℝ

def accZero : RuleAcc := ⟨0, 0, 0, 0, 0⟩

/-- the body of the neighbor loop shared by `computeVelocityChange` and
both neighbor-search kernels (lines 285-303, 464-483, 538-557). -/
def ruleStep (myPos : Vec3) (a : RuleAcc) (nPos nVel : Vec3) : RuleAcc :=
  { r1 := if Vec3.dist nPos myPos < rule1Distance then a.r1 + nPos else a.r1,
    c1 := if Vec3.dist nPos myPos < rule1Distance then a.c1 + 1 else a.c1,
    r2 := if Vec3.dist nPos myPos < rule2Distance then a.r2 + (myPos - nPos) else a.r2,
    r3 := if Vec3.dist nPos myPos < rule3Distance then a.r3 + nVel else a.r3,
    c3 := if Vec3.dist nPos myPos < rule3Distance then a.c3 + 1 else a.c3 }

/-- the epilogue shared by all three variants (lines 304-308, 485-488,
559-562): `rule1 = (rule1/cnt1 - myPos)*k1; rule2 *= k2;
rule3 = rule3/cnt3 * k3; return rule1 + rule2 + rule3`.
Real division here is total; see `finishRulesChecked`. -/
def finishRules (a : RuleAcc) (myPos : Vec3) : Vec3 :=
  ((a.r1 / a.c1 - myPos) * rule1Scale) + (a.r2 * rule2Scale) +
    ((a.r3 / a.c3) * rule3Scale)

/-- the same epilogue under IEEE semantics: the source divides by
`rule1Cnt` and `rule3Cnt` with no guard, and a float division of the
accumulators by a zero count yields a non-finite value (`0/0 = NaN`)
which poisons the result; `none` models that outcome. -/
def finishRulesChecked (a : RuleAcc) (myPos : Vec3) : Option Vec3 :=
  if a.c1 = 0 ∨ a.c3 = 0 then none else some (finishRules a myPos)

/-- the accumulation loop of `computeVelocityChange` (lines 277-303):
all `N` boids, the boid itself included, are candidates. -/
def bruteAcc (N iSelf : ℤ) (pos vel : ℤ → Vec3) : RuleAcc :=
  (intRange 0 N).foldl (fun a i => ruleStep (pos iSelf) a (pos i) (vel i)) accZero

/-- `computeVelocityChange` (lines 277-309). -/
def computeVelocityChange (N iSelf : ℤ) (pos vel : ℤ → Vec3) : Vec3 :=
  finishRules (bruteAcc N iSelf pos vel) (pos iSelf)

/-- the speed clamp (lines 322-325, 491-492, 565-566):
`if (speed > maxSpeed) newVel = newVel / speed * maxSpeed`. -/
def clampSpeed (v : Vec3) : Vec3 :=
  if Vec3.len v > maxSpeed then (v / Vec3.len v) * maxSpeed else v

/-- per-thread result of `kernUpdateVelocityBruteForce` (lines 315-328). -/
def kernUpdateVelocityBruteForce (N : ℤ) (pos vel1 : ℤ → Vec3) (iSelf : ℤ) : Vec3 :=
  clampSpeed (vel1 iSelf + computeVelocityChange N iSelf pos vel1)

/-! ## Position integration -/

/-- the wraparound of one coordinate in `kernUpdatePos` (lines 344-350):
first the low test (below `-scene_scale` ↦ `scene_scale`), then the high
test (above `scene_scale` ↦ `-scene_scale`) on its result. -/
def wrapCoord (x : ℝ) : ℝ :=
  if (if x < -scene_scale then scene_scale else x) > scene_scale then -scene_scale
  else (if x < -scene_scale then scene_scale else x)

def wrapVec (p : Vec3) : Vec3 := ⟨wrapCoord p.x, wrapCoord p.y, wrapCoord p.z⟩

/-- `kernUpdatePos` (lines 334-353). -/
def kernUpdatePos (N : ℤ) (dt : ℝ) (pos vel : ℤ → Vec3) : ℤ → Vec3 :=
  fun i => if 0 ≤ i ∧ i < N then wrapVec (pos i + vel i * dt) else pos i

/-! ## Grid neighbor search -/

/-- the offset arrays `dx`, `dy`, `dz` (lines 450-452, 524-526), in loop
order `i = 0..7`. -/
def neighborOffsets : List (ℤ × ℤ × ℤ) :=
  [(0, 0, 0), (1, 0, 0), (0, 1, 0), (1, 1, 0),
   (0, 0, 1), (1, 0, 1), (0, 1, 1), (1, 1, 1)]

/-- the cell ids visited by the 8-cell loop: offsets whose coordinate
exceeds the grid resolution on the high side are skipped (`continue`),
lines 458-461 / 532-535. -/
def searchCells (R : ℤ) (g : ℤ × ℤ × ℤ) : List ℤ :=
  neighborOffsets.filterMap fun d =>
    if g.1 + d.1 ≥ R ∨ g.2.1 + d.2.1 ≥ R ∨ g.2.2 + d.2.2 ≥ R then none
    else some (gridIndex3Dto1D (g.1 + d.1) (g.2.1 + d.2.1) (g.2.2 + d.2.2) R)

/-- the slots of one cell's bucket: `for (j = start; j < end; ++j)`. -/
def cellSlots (t : CellTables) (c : ℤ) : List ℤ :=
  intRange (t.cellStart c) (t.cellEnd c)

/-- the accumulation of the grid-based neighbor loops (lines 458-484 and
532-558), parametrized by how a slot is resolved to neighbor data
(`lookPos`/`lookVel`): through `particleArrayIndices` in the scattered
kernel, directly in the coherent kernel. -/
def gridAcc (t : CellTables) (lookPos lookVel : ℤ → Vec3) (myPos : Vec3) : RuleAcc :=
  (searchCells gridSideCount (gridCoordOf myPos)).foldl
    (fun a c => (cellSlots t c).foldl
      (fun a' j => ruleStep myPos a' (lookPos j) (lookVel j)) a) accZero

/-- the common tail of both grid velocity kernels: accumulate over the
searched cells, finish the rules, add to the boid's current velocity and
clamp. -/
def gridVelUpdate (t : CellTables) (lookPos lookVel : ℤ → Vec3)
    (myPos baseVel : Vec3) : Vec3 :=
  clampSpeed (baseVel + finishRules (gridAcc t lookPos lookVel myPos) myPos)

/-- per-thread result of `kernUpdateVelNeighborSearchScattered`
(lines 421-493): thread `iSelf` serves boid `arr iSelf` and resolves each
neighbor slot `j` through `particleArrayIndices` (= `arr`). -/
def kernUpdateVelNeighborSearchScattered (t : CellTables) (arr : ℤ → ℤ)
    (pos vel1 : ℤ → Vec3) (iSelf : ℤ) : Vec3 :=
  gridVelUpdate t (fun j => pos (arr j)) (fun j => vel1 (arr j))
    (pos (arr iSelf)) (vel1 (arr iSelf))

/-- per-thread result of `kernUpdateVelNeighborSearchCoherent`
(lines 495-567): thread `boidId` indexes the (rearranged) buffers
directly. -/
def kernUpdateVelNeighborSearchCoherent (t : CellTables)
    (pos vel1 : ℤ → Vec3) (boidId : ℤ) : Vec3 :=
  gridVelUpdate t pos vel1 (pos boidId) (vel1 boidId)

/-! ## The three step functions -/

/-- full simulation state: the canonical position buffer, the canonical
velocity buffer (`dev_vel1` after the step's swap) and the grid cell
start/end tables, which persist across steps (the step functions never
reset them). -/
structure SimState where
  pos : ℤ → Vec3
  vel : ℤ → Vec3
  tables : CellTables

/-- sort-permutation contract of `thrust::sort_by_key` (§4.2): `arr`
restricted to `[0, N)` is a permutation of `[0, N)` that puts the keys in
ascending order. -/
def IsSortedArrangement (N : ℤ) (keys arr : ℤ → ℤ) : Prop :=
  (∀ s, 0 ≤ s → s < N → 0 ≤ arr s ∧ arr s < N) ∧
  (∀ s t, 0 ≤ s → s < N → 0 ≤ t → t < N → arr s = arr t → s = t) ∧
  (∀ b, 0 ≤ b → b < N → ∃ s, 0 ≤ s ∧ s < N ∧ arr s = b) ∧
  (∀ s t, 0 ≤ s → s ≤ t → t < N → keys (arr s) ≤ keys (arr t))

/-- `Boids::stepSimulationNaive` (lines 585-595): brute-force velocity
update into `dev_vel2`, position update from it, then the ping-pong swap
makes `dev_vel2` the canonical velocity buffer. -/
def stepSimulationNaive (N : ℤ) (dt : ℝ) (st : SimState) : SimState :=
  let vel2 : ℤ → Vec3 := fun b =>
    if 0 ≤ b ∧ b < N then kernUpdateVelocityBruteForce N st.pos st.vel b else st.vel b
  { pos := kernUpdatePos N dt st.pos vel2, vel := vel2, tables := st.tables }

/-- the sorted-key buffer of a grid step: `dev_particleGridIndices` after
`kernComputeIndices` and the key sort. -/
def sortedKeys (arr : ℤ → ℤ) (st : SimState) : ℤ → ℤ :=
  fun s => cellIdOf (st.pos (arr s))

/-- the cell tables after a grid step's `kernIdentifyCellStartEnd`
(**no prior reset** — the step functions never call
`kernResetIntBuffer`, so entries of cells with no occupants this step
keep whatever the previous step left there). -/
def stepTables (N : ℤ) (arr : ℤ → ℤ) (st : SimState) : CellTables :=
  kernIdentifyCellStartEnd N (sortedKeys arr st) st.tables

open Classical in
/-- the `dev_vel2` buffer written by `kernUpdateVelNeighborSearchScattered`:
thread `s` writes boid `arr s`, so boid `b` holds the result of the
thread (if any) whose `particleArrayIndices` entry is `b`; boids no
thread serves keep the buffer's previous contents. -/
def scatteredVelBuf (N : ℤ) (arr : ℤ → ℤ) (st : SimState) : ℤ → Vec3 :=
  fun b =>
    if h : ∃ s, 0 ≤ s ∧ s < N ∧ arr s = b then
      kernUpdateVelNeighborSearchScattered (stepTables N arr st) arr st.pos st.vel
        h.choose
    else st.vel b

/-- `Boids::stepSimulationScatteredGrid` (lines 597-652):
compute cell ids, sort (modelled by the supplied arrangement `arr`; the
sorted key buffer is then `sortedKeys arr st`), identify cell start/end
**without any prior reset of the tables**, run the scattered velocity
kernel, update positions, swap the velocity buffers. -/
def stepSimulationScatteredGrid (N : ℤ) (dt : ℝ) (arr : ℤ → ℤ) (st : SimState) :
    SimState :=
  { pos := kernUpdatePos N dt st.pos (scatteredVelBuf N arr st),
    vel := scatteredVelBuf N arr st,
    tables := stepTables N arr st }

/-- `kernRearrangeArray` (lines 570-580) applied to the position buffer:
`pos2[s] = pos[particleArrayIndices[s]]` for `s < N`; other entries keep
the old buffer contents (modelled as the unarranged buffer's). -/
def coherentPos2 (N : ℤ) (arr : ℤ → ℤ) (st : SimState) : ℤ → Vec3 :=
  fun s => if 0 ≤ s ∧ s < N then st.pos (arr s) else st.pos s

/-- `kernRearrangeArray` applied to the velocity buffer. -/
def coherentVel2 (N : ℤ) (arr : ℤ → ℤ) (st : SimState) : ℤ → Vec3 :=
  fun s => if 0 ≤ s ∧ s < N then st.vel (arr s) else st.vel s

/-- the (slot-indexed) velocity buffer written by
`kernUpdateVelNeighborSearchCoherent` into `dev_vel1`. -/
def coherentVelOut (N : ℤ) (arr : ℤ → ℤ) (st : SimState) : ℤ → Vec3 :=
  fun s =>
    if 0 ≤ s ∧ s < N then
      kernUpdateVelNeighborSearchCoherent (stepTables N arr st)
        (coherentPos2 N arr st) (coherentVel2 N arr st) s
    else coherentVel2 N arr st s

/-- `Boids::stepSimulationCoherentGrid` (lines 654-721):
as the scattered step, but `kernRearrangeArray` first copies position and
velocity into slot order; the coherent kernel then indexes those buffers
directly and the final state is in slot order (`dev_pos2` is swapped in
as the canonical position buffer, and the coherent kernel wrote its
output into `dev_vel1`). -/
def stepSimulationCoherentGrid (N : ℤ) (dt : ℝ) (arr : ℤ → ℤ) (st : SimState) :
    SimState :=
  { pos := kernUpdatePos N dt (coherentPos2 N arr st) (coherentVelOut N arr st),
    vel := coherentVelOut N arr st,
    tables := stepTables N arr st }

/-! ## Helper lemmas: floor against integer clamp bounds -/

theorem floor_max_intCast (a : ℝ) (n : ℤ) : ⌊max a (n : ℝ)⌋ = max ⌊a⌋ n := by
  rcases le_total a (n : ℝ) with h | h
  · rw [max_eq_right h, Int.floor_intCast,
      max_eq_right ((Int.floor_le_floor h).trans_eq (Int.floor_intCast n))]
  · rw [max_eq_left h, max_eq_left]
    exact le_trans ((Int.floor_intCast n).symm.le) (Int.floor_le_floor h)

theorem floor_min_intCast (a : ℝ) (n : ℤ) : ⌊min a (n : ℝ)⌋ = min ⌊a⌋ n := by
  rcases le_total a (n : ℝ) with h | h
  · rw [min_eq_left h, min_eq_left]
    exact le_trans (Int.floor_le_floor h) (Int.floor_intCast n).le
  · rw [min_eq_right h, Int.floor_intCast,
      min_eq_right ((Int.floor_intCast n).symm.le.trans (Int.floor_le_floor h))]

/-- flooring after clamping to the integer bounds `[0, n]` equals clamping
the floor: the source's `int(clamp(u, 0, R))` and the spec's
`clamp(floor(u), 0, R)` agree. -/
theorem floor_clampR (a : ℝ) (n : ℤ) :
    ⌊clampR a 0 (n : ℝ)⌋ = min (max ⌊a⌋ 0) n := by
  unfold clampR
  rw [show (0 : ℝ) = ((0 : ℤ) : ℝ) by norm_num, floor_min_intCast, floor_max_intCast]

/-! ## C6 — Spatial Hash Indexer contract -/

/-- Modelled from the spec's words (§4.1, claim C6): per axis
`cellCoord = clamp(floor((pos - gridMin) * invCellWidth - 0.5), 0, gridSideCount)`,
then `cellId = x + y*side + z*side²`. -/
def specCellId (p : Vec3) : ℤ :=
  (min (max ⌊(p.x - gridMinimum.x) * gridInverseCellWidth - 0.5⌋ 0) gridSideCount) +
  (min (max ⌊(p.y - gridMinimum.y) * gridInverseCellWidth - 0.5⌋ 0) gridSideCount)
    * gridSideCount +
  (min (max ⌊(p.z - gridMinimum.z) * gridInverseCellWidth - 0.5⌋ 0) gridSideCount)
    * gridSideCount ^ 2

theorem cellIdOf_eq_specCellId (p : Vec3) : cellIdOf p = specCellId p := by
  unfold cellIdOf gridCoordOf gridIndex3Dto1D gridCoordAxis specCellId
  rw [floor_clampR, floor_clampR, floor_clampR]
  ring

/-- C6: for every agent, the Spatial Hash Indexer computes per axis
`cellCoord = clamp(floor((pos - gridMin) * invCellWidth - 0.5), 0, gridSideCount)`
and then `cellId = x + y*side + z*side²`, and writes exactly two outputs:
the identity array (agent id ↦ its own id) and the agent id ↦ cellId
array. -/
theorem C6_computeIndices_contract (N : ℤ) (pos : ℤ → Vec3) (ind0 gI0 : ℤ → ℤ)
    (i : ℤ) (h0 : 0 ≤ i) (hN : i < N) :
    (kernComputeIndices N pos ind0 gI0).1 i = i ∧
    (kernComputeIndices N pos ind0 gI0).2 i = specCellId (pos i) := by
  constructor
  · show (if 0 ≤ i ∧ i < N then i else ind0 i) = i
    rw [if_pos ⟨h0, hN⟩]
  · show (if 0 ≤ i ∧ i < N then cellIdOf (pos i) else gI0 i) = specCellId (pos i)
    rw [if_pos ⟨h0, hN⟩, cellIdOf_eq_specCellId]

theorem C6_computeIndices_contract_witness :
    ((0 : ℤ) ≤ 0 ∧ (0 : ℤ) < 1) ∧
    ((kernComputeIndices 1 (fun _ => (0 : Vec3)) (fun _ => 7) (fun _ => 7)).1 0 = 0 ∧
     (kernComputeIndices 1 (fun _ => (0 : Vec3)) (fun _ => 7) (fun _ => 7)).2 0 =
       specCellId ((fun _ => (0 : Vec3)) 0)) :=
  ⟨⟨le_refl 0, by norm_num⟩,
    C6_computeIndices_contract 1 (fun _ => (0 : Vec3)) (fun _ => 7) (fun _ => 7) 0
      (le_refl 0) (by norm_num)⟩

/-! ## C8 — Position Integrator wraparound -/

@[simp] theorem wrapVec_x (p : Vec3) : (wrapVec p).x = wrapCoord p.x := rfl
@[simp] theorem wrapVec_y (p : Vec3) : (wrapVec p).y = wrapCoord p.y := rfl
@[simp] theorem wrapVec_z (p : Vec3) : (wrapVec p).z = wrapCoord p.z := rfl

theorem wrapCoord_of_gt {x : ℝ} (h : scene_scale < x) : wrapCoord x = -scene_scale := by
  have h' : ¬x < -scene_scale := by
    unfold scene_scale at h ⊢; linarith
  unfold wrapCoord
  rw [if_neg h', if_pos (show x > scene_scale from h)]

theorem wrapCoord_of_lt {x : ℝ} (h : x < -scene_scale) : wrapCoord x = scene_scale := by
  unfold wrapCoord
  rw [if_pos h, if_neg (show ¬scene_scale > scene_scale from lt_irrefl _)]

theorem wrapCoord_of_mem {x : ℝ} (h1 : ¬x < -scene_scale) (h2 : ¬scene_scale < x) :
    wrapCoord x = x := by
  unfold wrapCoord
  rw [if_neg h1, if_neg (show ¬x > scene_scale from h2)]

/-- C8 (amended): the integrator computes `pos + vel*dt` and wraps each
coordinate; an agent resting exactly at the positive boundary stays
there; but a coordinate pushed past the positive boundary is set to
exactly the negative boundary `-scene_scale` — the overflow is
discarded, not added (contrary to the claim's `boundary_min + overflow`).
-/
theorem C8_updatePos_boundary (N : ℤ) (dt : ℝ) (pos vel : ℤ → Vec3) (b : ℤ)
    (h0 : 0 ≤ b) (hN : b < N) (hdt : 0 < dt) :
    (kernUpdatePos N dt pos vel b = wrapVec (pos b + vel b * dt)) ∧
    (vel b = 0 → (pos b).x = scene_scale →
      (kernUpdatePos N dt pos vel b).x = scene_scale) ∧
    (∀ x : ℝ, scene_scale < x → wrapCoord x = -scene_scale) := by
  have hstep : kernUpdatePos N dt pos vel b = wrapVec (pos b + vel b * dt) := by
    unfold kernUpdatePos
    rw [if_pos ⟨h0, hN⟩]
  refine ⟨hstep, ?_, fun x hx => wrapCoord_of_gt hx⟩
  intro hv hx
  rw [hstep, wrapVec_x, Vec3.add_x, Vec3.mulS_x, hv, Vec3.zero_x, hx]
  rw [zero_mul, add_zero]
  exact wrapCoord_of_mem (by unfold scene_scale; norm_num)
    (by unfold scene_scale; norm_num)

theorem C8_updatePos_boundary_witness :
    ((0 : ℤ) ≤ 0 ∧ (0 : ℤ) < 1 ∧ (0 : ℝ) < 1) ∧
    (kernUpdatePos 1 1 (fun _ => ⟨scene_scale, 0, 0⟩) (fun _ => 0) 0).x = scene_scale :=
  ⟨⟨le_refl 0, by norm_num, by norm_num⟩,
    (C8_updatePos_boundary 1 1 (fun _ => ⟨scene_scale, 0, 0⟩) (fun _ => 0) 0
      (le_refl 0) (by norm_num) (by norm_num)).2.1 rfl rfl⟩

/-- C8 counterexample: an agent at the positive boundary `x = 100` with
velocity `0.5` and `dt = 1` crosses the boundary with overflow `0.5`; the
code sets the coordinate to exactly `-100`, not to
`boundary_min + overflow = -99.5` as the claim states. -/
theorem C8_overflow_counterexample :
    (kernUpdatePos 1 1 (fun _ => ⟨100, 0, 0⟩) (fun _ => ⟨0.5, 0, 0⟩) 0).x = -100 ∧
    (kernUpdatePos 1 1 (fun _ => ⟨100, 0, 0⟩) (fun _ => ⟨0.5, 0, 0⟩) 0).x ≠
      -scene_scale + 0.5 := by
  have h : (kernUpdatePos 1 1 (fun _ => ⟨100, 0, 0⟩) (fun _ => ⟨0.5, 0, 0⟩) 0).x
      = -100 := by
    unfold kernUpdatePos
    rw [if_pos ⟨le_refl 0, by norm_num⟩]
    simp only [wrapVec_x, Vec3.add_x, Vec3.mulS_x, Vec3.mk_x]
    rw [show (100 : ℝ) + 0.5 * 1 = 100.5 by norm_num,
      wrapCoord_of_gt (by unfold scene_scale; norm_num)]
    unfold scene_scale
    norm_num
  refine ⟨h, ?_⟩
  rw [h]
  unfold scene_scale
  norm_num

/-! ## C7 — speed clamp -/

theorem clampSpeed_of_gt {v : Vec3} (h : maxSpeed < Vec3.len v) :
    Vec3.len (clampSpeed v) = maxSpeed ∧ ∃ c : ℝ, 0 < c ∧ clampSpeed v = c • v := by
  have hms : (0 : ℝ) < maxSpeed := by unfold maxSpeed; norm_num
  have hL : 0 < Vec3.len v := lt_trans hms h
  have hC : clampSpeed v = (maxSpeed / Vec3.len v) • v := by
    unfold clampSpeed
    rw [if_pos (show Vec3.len v > maxSpeed from h)]
    ext <;> simp <;> ring
  have hc : 0 < maxSpeed / Vec3.len v := div_pos hms hL
  refine ⟨?_, maxSpeed / Vec3.len v, hc, hC⟩
  rw [hC, Vec3.len_smul_of_nonneg hc.le, div_mul_cancel₀ _ (ne_of_gt hL)]

theorem clampSpeed_of_le {v : Vec3} (h : Vec3.len v ≤ maxSpeed) : clampSpeed v = v := by
  unfold clampSpeed
  rw [if_neg (not_lt_of_le h)]

/-- C7: the new brute-force velocity is `vA + rule1 + rule2 + rule3`
magnitude-clamped to `maxSpeed`: if the pre-clamp magnitude exceeds
`maxSpeed` the result has magnitude exactly `maxSpeed` and is a positive
multiple of the pre-clamp velocity (same direction); otherwise the clamp
is the identity. -/
theorem C7_velocity_clamp (N : ℤ) (pos vel1 : ℤ → Vec3) (iSelf : ℤ) :
    (kernUpdateVelocityBruteForce N pos vel1 iSelf =
      clampSpeed (vel1 iSelf + computeVelocityChange N iSelf pos vel1)) ∧
    (∀ w : Vec3, maxSpeed < Vec3.len w →
      Vec3.len (clampSpeed w) = maxSpeed ∧ ∃ c : ℝ, 0 < c ∧ clampSpeed w = c • w) ∧
    (∀ w : Vec3, Vec3.len w ≤ maxSpeed → clampSpeed w = w) :=
  ⟨rfl, fun _ h => clampSpeed_of_gt h, fun _ h => clampSpeed_of_le h⟩

theorem C7_velocity_clamp_witness :
    maxSpeed < Vec3.len ⟨3.3, 0, 0⟩ ∧
    Vec3.len (clampSpeed ⟨3.3, 0, 0⟩) = maxSpeed ∧
    ∃ c : ℝ, 0 < c ∧ clampSpeed ⟨3.3, 0, 0⟩ = c • (⟨3.3, 0, 0⟩ : Vec3) := by
  have h : maxSpeed < Vec3.len ⟨3.3, 0, 0⟩ := by
    rw [Vec3.lt_len_iff _ (show (0:ℝ) ≤ maxSpeed by unfold maxSpeed; norm_num)]
    unfold maxSpeed
    norm_num
  exact ⟨h, (C7_velocity_clamp 0 (fun _ => 0) (fun _ => 0) 0).2.1 _ h⟩

/-! ## Accumulator characterization: the rule loop as sums -/

instance : AddCommMonoid Vec3 where
  add_assoc a b c := by ext <;> simp <;> ring
  zero_add a := by ext <;> simp
  add_zero a := by ext <;> simp
  add_comm a b := by ext <;> simp <;> ring
  nsmul := nsmulRec

@[simp] theorem Vec3.sub_self (a : Vec3) : a - a = 0 := by ext <;> simp

/-- one neighbor's contribution to each accumulator. -/
def contrib1 (myPos nPos : Vec3) : Vec3 :=
  if Vec3.dist nPos myPos < rule1Distance then nPos else 0

def contribC1 (myPos nPos : Vec3) : ℝ :=
  if Vec3.dist nPos myPos < rule1Distance then 1 else 0

def contrib2 (myPos nPos : Vec3) : Vec3 :=
  if Vec3.dist nPos myPos < rule2Distance then myPos - nPos else 0

def contrib3 (myPos nPos nVel : Vec3) : Vec3 :=
  if Vec3.dist nPos myPos < rule3Distance then nVel else 0

def contribC3 (myPos nPos : Vec3) : ℝ :=
  if Vec3.dist nPos myPos < rule3Distance then 1 else 0

/-- the rule loop over any index list is the accumulator plus the sums of
the per-neighbor contributions. -/
theorem foldl_ruleStep_char (myPos : Vec3) (pf vf : ℤ → Vec3) (L : List ℤ)
    (a : RuleAcc) :
    L.foldl (fun acc i => ruleStep myPos acc (pf i) (vf i)) a =
    { r1 := a.r1 + (L.map (fun i => contrib1 myPos (pf i))).sum,
      c1 := a.c1 + (L.map (fun i => contribC1 myPos (pf i))).sum,
      r2 := a.r2 + (L.map (fun i => contrib2 myPos (pf i))).sum,
      r3 := a.r3 + (L.map (fun i => contrib3 myPos (pf i) (vf i))).sum,
      c3 := a.c3 + (L.map (fun i => contribC3 myPos (pf i))).sum } := by
  induction L generalizing a with
  | nil => cases a; simp
  | cons hd tl ih =>
    simp only [List.foldl_cons, List.map_cons, List.sum_cons, ih]
    unfold ruleStep contrib1 contribC1 contrib2 contrib3 contribC3
    split_ifs <;>
      simp only [RuleAcc.mk.injEq, zero_add, add_zero] <;>
      refine ⟨?_, ?_, ?_, ?_, ?_⟩ <;> first | trivial | rw [add_assoc]

theorem contribC1_nonneg (myPos nPos : Vec3) : 0 ≤ contribC1 myPos nPos := by
  unfold contribC1; split_ifs <;> norm_num

theorem contribC3_nonneg (myPos nPos : Vec3) : 0 ≤ contribC3 myPos nPos := by
  unfold contribC3; split_ifs <;> norm_num

theorem contribC1_self (p : Vec3) : contribC1 p p = 1 := by
  unfold contribC1
  rw [if_pos]
  rw [Vec3.dist_self]
  unfold rule1Distance; norm_num

theorem contribC3_self (p : Vec3) : contribC3 p p = 1 := by
  unfold contribC3
  rw [if_pos]
  rw [Vec3.dist_self]
  unfold rule3Distance; norm_num

theorem contrib1_self (p : Vec3) : contrib1 p p = p := by
  unfold contrib1
  rw [if_pos]
  rw [Vec3.dist_self]
  unfold rule1Distance; norm_num

theorem contrib2_self (p : Vec3) : contrib2 p p = 0 := by
  unfold contrib2
  split_ifs <;> simp

theorem contrib3_self (p v : Vec3) : contrib3 p p v = v := by
  unfold contrib3
  rw [if_pos]
  rw [Vec3.dist_self]
  unfold rule3Distance; norm_num

/-! ## C9 / C10 — self-inclusion in the brute-force candidate set -/

/-- the same accumulation with the agent itself removed from the
candidate list (the "flocking literature" candidate set, used to state
what the self-term adds). -/
def bruteAccExcl (N iSelf : ℤ) (pos vel : ℤ → Vec3) : RuleAcc :=
  ((intRange 0 N).filter (fun i => decide (i ≠ iSelf))).foldl
    (fun a i => ruleStep (pos iSelf) a (pos i) (vel i)) accZero

/-- splitting off the self term: over a duplicate-free list containing
`x`, a sum is the filtered sum plus the `x` term. -/
theorem sum_filter_ne {M : Type} [AddCommMonoid M] (L : List ℤ) (hnd : L.Nodup)
    (x : ℤ) (hx : x ∈ L) (f : ℤ → M) :
    (L.map f).sum = ((L.filter (fun i => decide (i ≠ x))).map f).sum + f x := by
  have hperm : L.Perm (x :: L.erase x) := List.perm_cons_erase hx
  have herase : L.erase x = L.filter (fun i => decide (i ≠ x)) := by
    simpa using List.Nodup.erase_eq_filter hnd x
  rw [List.Perm.sum_eq (hperm.map f), List.map_cons, List.sum_cons, herase, add_comm]

theorem bruteAcc_self_split (N iSelf : ℤ) (pos vel : ℤ → Vec3)
    (h0 : 0 ≤ iSelf) (hN : iSelf < N) :
    (bruteAcc N iSelf pos vel).c1 = (bruteAccExcl N iSelf pos vel).c1 + 1 ∧
    (bruteAcc N iSelf pos vel).r1 = (bruteAccExcl N iSelf pos vel).r1 + pos iSelf ∧
    (bruteAcc N iSelf pos vel).r2 = (bruteAccExcl N iSelf pos vel).r2 ∧
    (bruteAcc N iSelf pos vel).c3 = (bruteAccExcl N iSelf pos vel).c3 + 1 ∧
    (bruteAcc N iSelf pos vel).r3 = (bruteAccExcl N iSelf pos vel).r3 + vel iSelf := by
  have hmem : iSelf ∈ intRange 0 N := mem_intRange.mpr ⟨h0, hN⟩
  have hnd := intRange_nodup 0 N
  unfold bruteAcc bruteAccExcl
  rw [foldl_ruleStep_char, foldl_ruleStep_char]
  refine ⟨?_, ?_, ?_, ?_, ?_⟩ <;>
    simp only [sum_filter_ne (intRange 0 N) hnd iSelf hmem] <;>
    simp [contribC1_self, contribC3_self, contrib1_self, contrib2_self, contrib3_self,
      add_assoc]

/-- C9: in the brute-force variant every one of the `N` agents, the agent
itself included, is a candidate; the self term increments the rule-1 and
rule-3 counts by exactly one and adds the agent's own position/velocity
to those accumulators, while adding exactly zero to the rule-2
separation sum. -/
theorem C9_self_inclusion (N iSelf : ℤ) (pos vel : ℤ → Vec3)
    (h0 : 0 ≤ iSelf) (hN : iSelf < N) :
    (bruteAcc N iSelf pos vel).c1 = (bruteAccExcl N iSelf pos vel).c1 + 1 ∧
    (bruteAcc N iSelf pos vel).r1 = (bruteAccExcl N iSelf pos vel).r1 + pos iSelf ∧
    (bruteAcc N iSelf pos vel).r2 = (bruteAccExcl N iSelf pos vel).r2 ∧
    (bruteAcc N iSelf pos vel).c3 = (bruteAccExcl N iSelf pos vel).c3 + 1 ∧
    (bruteAcc N iSelf pos vel).r3 = (bruteAccExcl N iSelf pos vel).r3 + vel iSelf :=
  bruteAcc_self_split N iSelf pos vel h0 hN

theorem C9_self_inclusion_witness :
    ((0 : ℤ) ≤ 0 ∧ (0 : ℤ) < 1) ∧
    ((bruteAcc 1 0 (fun _ => ⟨1, 2, 3⟩) (fun _ => ⟨4, 5, 6⟩)).c1 =
      (bruteAccExcl 1 0 (fun _ => ⟨1, 2, 3⟩) (fun _ => ⟨4, 5, 6⟩)).c1 + 1 ∧
     (bruteAcc 1 0 (fun _ => ⟨1, 2, 3⟩) (fun _ => ⟨4, 5, 6⟩)).r1 =
      (bruteAccExcl 1 0 (fun _ => ⟨1, 2, 3⟩) (fun _ => ⟨4, 5, 6⟩)).r1 +
        (fun _ : ℤ => (⟨1, 2, 3⟩ : Vec3)) 0 ∧
     (bruteAcc 1 0 (fun _ => ⟨1, 2, 3⟩) (fun _ => ⟨4, 5, 6⟩)).r2 =
      (bruteAccExcl 1 0 (fun _ => ⟨1, 2, 3⟩) (fun _ => ⟨4, 5, 6⟩)).r2 ∧
     (bruteAcc 1 0 (fun _ => ⟨1, 2, 3⟩) (fun _ => ⟨4, 5, 6⟩)).c3 =
      (bruteAccExcl 1 0 (fun _ => ⟨1, 2, 3⟩) (fun _ => ⟨4, 5, 6⟩)).c3 + 1 ∧
     (bruteAcc 1 0 (fun _ => ⟨1, 2, 3⟩) (fun _ => ⟨4, 5, 6⟩)).r3 =
      (bruteAccExcl 1 0 (fun _ => ⟨1, 2, 3⟩) (fun _ => ⟨4, 5, 6⟩)).r3 +
        (fun _ : ℤ => (⟨4, 5, 6⟩ : Vec3)) 0) :=
  ⟨⟨le_refl 0, by norm_num⟩,
    C9_self_inclusion 1 0 (fun _ => ⟨1, 2, 3⟩) (fun _ => ⟨4, 5, 6⟩) (le_refl 0)
      (by norm_num)⟩

theorem bruteAccExcl_counts_nonneg (N iSelf : ℤ) (pos vel : ℤ → Vec3) :
    0 ≤ (bruteAccExcl N iSelf pos vel).c1 ∧ 0 ≤ (bruteAccExcl N iSelf pos vel).c3 := by
  unfold bruteAccExcl
  rw [foldl_ruleStep_char]
  constructor
  · simp only [accZero, zero_add]
    apply List.sum_nonneg
    intro r hr
    rcases List.mem_map.mp hr with ⟨i, _, rfl⟩
    exact contribC1_nonneg _ _
  · simp only [accZero, zero_add]
    apply List.sum_nonneg
    intro r hr
    rcases List.mem_map.mp hr with ⟨i, _, rfl⟩
    exact contribC3_nonneg _ _

/-- C10: for every `N ≥ 1` and every agent, the brute-force rule-1 and
rule-3 counts are at least 1 (the agent itself is at distance 0, strictly
below every radius), so the unguarded divisions by `rule1Cnt` and
`rule3Cnt` never divide by zero in the brute-force variant. -/
theorem C10_brute_counts_positive (N iSelf : ℤ) (pos vel : ℤ → Vec3)
    (h0 : 0 ≤ iSelf) (hN : iSelf < N) :
    1 ≤ (bruteAcc N iSelf pos vel).c1 ∧ 1 ≤ (bruteAcc N iSelf pos vel).c3 ∧
    finishRulesChecked (bruteAcc N iSelf pos vel) (pos iSelf) =
      some (computeVelocityChange N iSelf pos vel) := by
  obtain ⟨hc1, _, _, hc3, _⟩ := bruteAcc_self_split N iSelf pos vel h0 hN
  obtain ⟨hn1, hn3⟩ := bruteAccExcl_counts_nonneg N iSelf pos vel
  have h1 : 1 ≤ (bruteAcc N iSelf pos vel).c1 := by rw [hc1]; linarith
  have h3 : 1 ≤ (bruteAcc N iSelf pos vel).c3 := by rw [hc3]; linarith
  refine ⟨h1, h3, ?_⟩
  unfold finishRulesChecked computeVelocityChange
  rw [if_neg]
  push_neg
  constructor <;> intro h <;> [rw [h] at h1; rw [h] at h3] <;> linarith

theorem C10_brute_counts_positive_witness :
    ((0 : ℤ) ≤ 0 ∧ (0 : ℤ) < 1) ∧
    (1 ≤ (bruteAcc 1 0 (fun _ => 0) (fun _ => 0)).c1 ∧
     1 ≤ (bruteAcc 1 0 (fun _ => 0) (fun _ => 0)).c3 ∧
     finishRulesChecked (bruteAcc 1 0 (fun _ => 0) (fun _ => 0))
        ((fun _ : ℤ => (0 : Vec3)) 0) =
       some (computeVelocityChange 1 0 (fun _ => 0) (fun _ => 0))) :=
  ⟨⟨le_refl 0, by norm_num⟩,
    C10_brute_counts_positive 1 0 (fun _ => 0) (fun _ => 0) (le_refl 0) (by norm_num)⟩

/-! ## C5 — Cell Bucket Locator: characterization of the start/end fold -/

/-- a cell is occupied when some sorted slot carries its key. -/
def Occupied (N : ℤ) (sk : ℤ → ℤ) (c : ℤ) : Prop :=
  ∃ s, 0 ≤ s ∧ s < N ∧ sk s = c

/-- thread `i` writes `cellStart[c]`. -/
def WritesStart (sk : ℤ → ℤ) (i c : ℤ) : Prop :=
  (i = 0 ∨ sk (i - 1) ≠ sk i) ∧ sk i = c

/-- thread `i` writes `cellEnd[c]`. -/
def WritesEnd (N : ℤ) (sk : ℤ → ℤ) (i c : ℤ) : Prop :=
  (i + 1 = N ∨ sk (i + 1) ≠ sk i) ∧ sk i = c

theorem foldl_identify_start_none (N : ℤ) (sk : ℤ → ℤ) (c : ℤ) :
    ∀ (L : List ℤ) (t : CellTables), (∀ i ∈ L, ¬WritesStart sk i c) →
      (L.foldl (identifyStep N sk) t).cellStart c = t.cellStart c := by
  intro L
  induction L with
  | nil => intro t _; rfl
  | cons hd tl ih =>
    intro t h
    rw [List.foldl_cons, ih _ (fun i hi => h i (List.mem_cons_of_mem _ hi))]
    unfold identifyStep
    dsimp only
    split_ifs with hc
    · have hne : sk hd ≠ c := fun hk => h hd (List.mem_cons_self _ _) ⟨hc, hk⟩
      rw [Function.update_noteq (Ne.symm hne)]
    · rfl

theorem foldl_identify_end_none (N : ℤ) (sk : ℤ → ℤ) (c : ℤ) :
    ∀ (L : List ℤ) (t : CellTables), (∀ i ∈ L, ¬WritesEnd N sk i c) →
      (L.foldl (identifyStep N sk) t).cellEnd c = t.cellEnd c := by
  intro L
  induction L with
  | nil => intro t _; rfl
  | cons hd tl ih =>
    intro t h
    rw [List.foldl_cons, ih _ (fun i hi => h i (List.mem_cons_of_mem _ hi))]
    unfold identifyStep
    dsimp only
    split_ifs with hc
    · have hne : sk hd ≠ c := fun hk => h hd (List.mem_cons_self _ _) ⟨hc, hk⟩
      rw [Function.update_noteq (Ne.symm hne)]
    · rfl

theorem foldl_identify_start_unique (N : ℤ) (sk : ℤ → ℤ) (c i0 : ℤ)
    (hw : WritesStart sk i0 c) :
    ∀ (L : List ℤ) (t : CellTables), i0 ∈ L →
      (∀ i ∈ L, WritesStart sk i c → i = i0) →
      (L.foldl (identifyStep N sk) t).cellStart c = i0 := by
  intro L
  induction L with
  | nil => intro t h; cases h
  | cons hd tl ih =>
    intro t hmem huniq
    rw [List.foldl_cons]
    by_cases htl : ∃ i ∈ tl, WritesStart sk i c
    · rcases htl with ⟨i, hi, hwi⟩
      have hieq : i = i0 := huniq i (List.mem_cons_of_mem _ hi) hwi
      exact ih _ (hieq ▸ hi) (fun j hj hwj => huniq j (List.mem_cons_of_mem _ hj) hwj)
    · push_neg at htl
      have hd_eq : hd = i0 := by
        rcases List.mem_cons.mp hmem with h | h
        · exact h.symm
        · exact absurd hw (htl i0 h)
      rw [foldl_identify_start_none N sk c tl _ htl]
      subst hd_eq
      unfold identifyStep
      dsimp only
      rw [if_pos hw.1, ← hw.2, Function.update_same]

theorem foldl_identify_end_unique (N : ℤ) (sk : ℤ → ℤ) (c i0 : ℤ)
    (hw : WritesEnd N sk i0 c) :
    ∀ (L : List ℤ) (t : CellTables), i0 ∈ L →
      (∀ i ∈ L, WritesEnd N sk i c → i = i0) →
      (L.foldl (identifyStep N sk) t).cellEnd c = i0 + 1 := by
  intro L
  induction L with
  | nil => intro t h; cases h
  | cons hd tl ih =>
    intro t hmem huniq
    rw [List.foldl_cons]
    by_cases htl : ∃ i ∈ tl, WritesEnd N sk i c
    · rcases htl with ⟨i, hi, hwi⟩
      have hieq : i = i0 := huniq i (List.mem_cons_of_mem _ hi) hwi
      exact ih _ (hieq ▸ hi) (fun j hj hwj => huniq j (List.mem_cons_of_mem _ hj) hwj)
    · push_neg at htl
      have hd_eq : hd = i0 := by
        rcases List.mem_cons.mp hmem with h | h
        · exact h.symm
        · exact absurd hw (htl i0 h)
      rw [foldl_identify_end_none N sk c tl _ htl]
      subst hd_eq
      unfold identifyStep
      dsimp only
      rw [if_pos hw.1, ← hw.2, Function.update_same]

/-- the occurrence Finset of cell `c` among the sorted slots. -/
def occSet (N : ℤ) (sk : ℤ → ℤ) (c : ℤ) : Finset ℤ :=
  (Finset.Icc 0 (N - 1)).filter (fun i => sk i = c)

theorem mem_occSet {N : ℤ} {sk : ℤ → ℤ} {c i : ℤ} :
    i ∈ occSet N sk c ↔ 0 ≤ i ∧ i < N ∧ sk i = c := by
  unfold occSet
  simp only [Finset.mem_filter, Finset.mem_Icc]
  constructor
  · rintro ⟨⟨h1, h2⟩, h3⟩; exact ⟨h1, by omega, h3⟩
  · rintro ⟨h1, h2, h3⟩; exact ⟨⟨h1, by omega⟩, h3⟩

theorem occSet_nonempty {N : ℤ} {sk : ℤ → ℤ} {c : ℤ} (h : Occupied N sk c) :
    (occSet N sk c).Nonempty := by
  rcases h with ⟨s, h1, h2, h3⟩
  exact ⟨s, mem_occSet.mpr ⟨h1, h2, h3⟩⟩

/-- on a sorted key array, the start table of an occupied cell holds its
first occurrence index. -/
theorem identify_start_occ (N : ℤ) (sk : ℤ → ℤ) (t0 : CellTables)
    (hmono : ∀ i j, 0 ≤ i → i ≤ j → j < N → sk i ≤ sk j)
    (c : ℤ) (hocc : Occupied N sk c) :
    ∃ f, (kernIdentifyCellStartEnd N sk t0).cellStart c = f ∧
      0 ≤ f ∧ f < N ∧ sk f = c ∧ (∀ i, 0 ≤ i → i < N → sk i = c → f ≤ i) := by
  have hne := occSet_nonempty hocc
  set f := (occSet N sk c).min' hne with hf
  obtain ⟨hf0, hfN, hfc⟩ := mem_occSet.mp ((occSet N sk c).min'_mem hne)
  have hmin : ∀ i, 0 ≤ i → i < N → sk i = c → f ≤ i := fun i h1 h2 h3 =>
    Finset.min'_le _ _ (mem_occSet.mpr ⟨h1, h2, h3⟩)
  have hw : WritesStart sk f c := by
    refine ⟨?_, hfc⟩
    by_cases h0 : f = 0
    · exact Or.inl h0
    · refine Or.inr fun heq => ?_
      have : f ≤ f - 1 := hmin (f - 1) (by omega) (by omega) (by rw [heq, hfc])
      omega
  have huniq : ∀ i ∈ intRange 0 N, WritesStart sk i c → i = f := by
    intro i hi hwi
    obtain ⟨hi0, hiN⟩ := mem_intRange.mp hi
    have hfi : f ≤ i := hmin i hi0 hiN hwi.2
    rcases eq_or_lt_of_le hfi with h | h
    · exact h.symm
    · exfalso
      have h1 : sk f ≤ sk (i - 1) := hmono f (i - 1) hf0 (by omega) (by omega)
      have h2 : sk (i - 1) ≤ sk i := hmono (i - 1) i (by omega) (by omega) hiN
      rcases hwi.1 with hz | hne'
      · omega
      · rw [hfc] at h1
        rw [hwi.2] at h2
        exact hne' (by rw [hwi.2]; omega)
  exact ⟨f, foldl_identify_start_unique N sk c f hw _ t0
    (mem_intRange.mpr ⟨hf0, hfN⟩) huniq, hf0, hfN, hfc, hmin⟩

/-- on a sorted key array, the end table of an occupied cell holds one
past its last occurrence index. -/
theorem identify_end_occ (N : ℤ) (sk : ℤ → ℤ) (t0 : CellTables)
    (hmono : ∀ i j, 0 ≤ i → i ≤ j → j < N → sk i ≤ sk j)
    (c : ℤ) (hocc : Occupied N sk c) :
    ∃ l, (kernIdentifyCellStartEnd N sk t0).cellEnd c = l + 1 ∧
      0 ≤ l ∧ l < N ∧ sk l = c ∧ (∀ i, 0 ≤ i → i < N → sk i = c → i ≤ l) := by
  have hne := occSet_nonempty hocc
  set l := (occSet N sk c).max' hne with hl
  obtain ⟨hl0, hlN, hlc⟩ := mem_occSet.mp ((occSet N sk c).max'_mem hne)
  have hmax : ∀ i, 0 ≤ i → i < N → sk i = c → i ≤ l := fun i h1 h2 h3 =>
    Finset.le_max' _ _ (mem_occSet.mpr ⟨h1, h2, h3⟩)
  have hw : WritesEnd N sk l c := by
    refine ⟨?_, hlc⟩
    by_cases h0 : l + 1 = N
    · exact Or.inl h0
    · refine Or.inr fun heq => ?_
      have : l + 1 ≤ l := hmax (l + 1) (by omega) (by omega) (by rw [heq, hlc])
      omega
  have huniq : ∀ i ∈ intRange 0 N, WritesEnd N sk i c → i = l := by
    intro i hi hwi
    obtain ⟨hi0, hiN⟩ := mem_intRange.mp hi
    have hil : i ≤ l := hmax i hi0 hiN hwi.2
    rcases eq_or_lt_of_le hil with h | h
    · exact h
    · exfalso
      have h1 : sk i ≤ sk (i + 1) := hmono i (i + 1) hi0 (by omega) (by omega)
      have h2 : sk (i + 1) ≤ sk l := hmono (i + 1) l (by omega) (by omega) hlN
      rcases hwi.1 with hz | hne'
      · omega
      · rw [hlc] at h2
        rw [hwi.2] at h1
        exact hne' (by rw [hwi.2]; omega)
  exact ⟨l, foldl_identify_end_unique N sk c l hw _ t0
    (mem_intRange.mpr ⟨hl0, hlN⟩) huniq, hl0, hlN, hlc, hmax⟩

/-- an unoccupied cell's table entries are untouched by the locator. -/
theorem identify_unoccupied (N : ℤ) (sk : ℤ → ℤ) (t0 : CellTables)
    (c : ℤ) (hocc : ¬Occupied N sk c) :
    (kernIdentifyCellStartEnd N sk t0).cellStart c = t0.cellStart c ∧
    (kernIdentifyCellStartEnd N sk t0).cellEnd c = t0.cellEnd c := by
  constructor
  · refine foldl_identify_start_none N sk c _ t0 fun i hi hwi => hocc ?_
    obtain ⟨h1, h2⟩ := mem_intRange.mp hi
    exact ⟨i, h1, h2, hwi.2⟩
  · refine foldl_identify_end_none N sk c _ t0 fun i hi hwi => hocc ?_
    obtain ⟨h1, h2⟩ := mem_intRange.mp hi
    exact ⟨i, h1, h2, hwi.2⟩

/-- an occupied cell's range is exactly its (contiguous) occurrence set. -/
theorem identify_range_iff (N : ℤ) (sk : ℤ → ℤ) (t0 : CellTables)
    (hmono : ∀ i j, 0 ≤ i → i ≤ j → j < N → sk i ≤ sk j)
    (c : ℤ) (hocc : Occupied N sk c) :
    (kernIdentifyCellStartEnd N sk t0).cellStart c <
      (kernIdentifyCellStartEnd N sk t0).cellEnd c ∧
    ∀ s, ((kernIdentifyCellStartEnd N sk t0).cellStart c ≤ s ∧
        s < (kernIdentifyCellStartEnd N sk t0).cellEnd c) ↔
      (0 ≤ s ∧ s < N ∧ sk s = c) := by
  obtain ⟨f, hfeq, hf0, hfN, hfc, hmin⟩ := identify_start_occ N sk t0 hmono c hocc
  obtain ⟨l, hleq, hl0, hlN, hlc, hmax⟩ := identify_end_occ N sk t0 hmono c hocc
  have hfl : f ≤ l := hmax f hf0 hfN hfc
  rw [hfeq, hleq]
  refine ⟨by omega, fun s => ⟨fun ⟨h1, h2⟩ => ?_, fun ⟨h1, h2, h3⟩ => ?_⟩⟩
  · have hs0 : 0 ≤ s := le_trans hf0 h1
    have hsN : s < N := by omega
    refine ⟨hs0, hsN, le_antisymm ?_ ?_⟩
    · rw [← hlc]; exact hmono s l hs0 (by omega) hlN
    · rw [← hfc]; exact hmono f s hf0 h1 hsN
  · exact ⟨hmin s h1 h2 h3, by have := hmax s h1 h2 h3; omega⟩

/-- C5: after the Cell Bucket Locator runs on an ascending key array with
both tables freshly reset to the empty sentinel `-1`, (1) every slot in
`[0, N)` lies within exactly one cell's `[start, end)` range; (2) every
occupied cell has `end > start` and its range contains exactly the slots
in `[0, N)` holding that cell's key (a contiguous run of its occupants,
so the non-empty ranges cover `[0, N)` exactly once, without gaps or
overlaps); (3) every unoccupied cell keeps the empty sentinel in both
tables. -/
theorem C5_bucket_partition (N : ℤ) (sk : ℤ → ℤ) (t0 : CellTables)
    (hmono : ∀ i j, 0 ≤ i → i ≤ j → j < N → sk i ≤ sk j)
    (hreset : ∀ c, t0.cellStart c = -1 ∧ t0.cellEnd c = -1) :
    (∀ s, 0 ≤ s → s < N → ∃! c,
      (kernIdentifyCellStartEnd N sk t0).cellStart c ≤ s ∧
      s < (kernIdentifyCellStartEnd N sk t0).cellEnd c) ∧
    (∀ c, Occupied N sk c →
      (kernIdentifyCellStartEnd N sk t0).cellStart c <
        (kernIdentifyCellStartEnd N sk t0).cellEnd c ∧
      ∀ s, ((kernIdentifyCellStartEnd N sk t0).cellStart c ≤ s ∧
          s < (kernIdentifyCellStartEnd N sk t0).cellEnd c) ↔
        (0 ≤ s ∧ s < N ∧ sk s = c)) ∧
    (∀ c, ¬Occupied N sk c →
      (kernIdentifyCellStartEnd N sk t0).cellStart c = -1 ∧
      (kernIdentifyCellStartEnd N sk t0).cellEnd c = -1) := by
  have hunocc : ∀ c, ¬Occupied N sk c →
      (kernIdentifyCellStartEnd N sk t0).cellStart c = -1 ∧
      (kernIdentifyCellStartEnd N sk t0).cellEnd c = -1 := by
    intro c hc
    obtain ⟨h1, h2⟩ := identify_unoccupied N sk t0 c hc
    exact ⟨h1.trans (hreset c).1, h2.trans (hreset c).2⟩
  refine ⟨?_, fun c hc => identify_range_iff N sk t0 hmono c hc, hunocc⟩
  intro s hs0 hsN
  refine ⟨sk s, ?_, ?_⟩
  · exact ((identify_range_iff N sk t0 hmono (sk s)
      ⟨s, hs0, hsN, rfl⟩).2 s).mpr ⟨hs0, hsN, rfl⟩
  · intro c hc
    by_cases hocc : Occupied N sk c
    · exact (((identify_range_iff N sk t0 hmono c hocc).2 s).mp hc).2.2.symm
    · obtain ⟨h1, h2⟩ := hunocc c hocc
      rw [h1, h2] at hc
      omega

theorem C5_bucket_partition_witness :
    ((∀ i j : ℤ, 0 ≤ i → i ≤ j → j < 1 →
        (fun _ : ℤ => (0 : ℤ)) i ≤ (fun _ : ℤ => (0 : ℤ)) j) ∧
      (∀ c : ℤ, (CellTables.mk (fun _ => -1) (fun _ => -1)).cellStart c = -1 ∧
        (CellTables.mk (fun _ => -1) (fun _ => -1)).cellEnd c = -1)) ∧
    (∀ s : ℤ, 0 ≤ s → s < 1 → ∃! c,
      (kernIdentifyCellStartEnd 1 (fun _ => 0)
        (CellTables.mk (fun _ => -1) (fun _ => -1))).cellStart c ≤ s ∧
      s < (kernIdentifyCellStartEnd 1 (fun _ => 0)
        (CellTables.mk (fun _ => -1) (fun _ => -1))).cellEnd c) :=
  ⟨⟨fun _ _ _ _ _ => le_refl 0, fun _ => ⟨rfl, rfl⟩⟩,
    (C5_bucket_partition 1 (fun _ => 0) (CellTables.mk (fun _ => -1) (fun _ => -1))
      (fun _ _ _ _ _ => le_refl 0) (fun _ => ⟨rfl, rfl⟩)).1⟩

/-! ## C3 — the rule averages are unguarded -/

theorem foldl_congr_mem {α β : Type} (L : List β) (f g : α → β → α) (a : α)
    (h : ∀ x, ∀ b ∈ L, f x b = g x b) : L.foldl f a = L.foldl g a := by
  induction L generalizing a with
  | nil => rfl
  | cons x xs ih =>
    simp only [List.foldl_cons, h a x (List.mem_cons_self _ _)]
    exact ih _ fun b y hy => h b y (List.mem_cons_of_mem _ hy)

theorem foldl_id {α β : Type} (L : List β) (a : α) : L.foldl (fun x _ => x) a = a := by
  induction L with
  | nil => rfl
  | cons x xs ih => exact ih

theorem foldl_foldl_flatten {α β : Type} (f : α → β → α) :
    ∀ (LL : List (List β)) (a : α),
      LL.foldl (fun x l => l.foldl f x) a = LL.flatten.foldl f a := by
  intro LL
  induction LL with
  | nil => intro a; rfl
  | cons l ls ih =>
    intro a
    simp only [List.foldl_cons, List.flatten_cons, List.foldl_append]
    exact ih _

/-- the nested cell/slot loops flattened into one neighbor-slot list. -/
theorem gridAcc_flatten (t : CellTables) (lookPos lookVel : ℤ → Vec3) (myPos : Vec3) :
    gridAcc t lookPos lookVel myPos =
    (((searchCells gridSideCount (gridCoordOf myPos)).map (cellSlots t)).flatten).foldl
      (fun a j => ruleStep myPos a (lookPos j) (lookVel j)) accZero := by
  unfold gridAcc
  rw [← foldl_foldl_flatten, List.foldl_map]

/-- C3 counterexample: feed the grid rule evaluation a bucket table that
marks every cell empty (`start = end = 0`).  All rule counts are then
zero and the unguarded `rule1 /= rule1Cnt` / `rule3 /= rule3Cnt`
divisions are by zero — under IEEE semantics the rule contribution is
NaN (`none`), not zero.  The averages are not guarded. -/
theorem C3_unguarded_divzero_counterexample :
    (gridAcc (CellTables.mk (fun _ => 0) (fun _ => 0)) (fun _ => 0) (fun _ => 0)
      ⟨0, 0, 0⟩).c1 = 0 ∧
    (gridAcc (CellTables.mk (fun _ => 0) (fun _ => 0)) (fun _ => 0) (fun _ => 0)
      ⟨0, 0, 0⟩).c3 = 0 ∧
    finishRulesChecked
      (gridAcc (CellTables.mk (fun _ => 0) (fun _ => 0)) (fun _ => 0) (fun _ => 0)
        ⟨0, 0, 0⟩) ⟨0, 0, 0⟩ = none := by
  have hslots : ∀ c, cellSlots (CellTables.mk (fun _ => 0) (fun _ => 0)) c = [] := by
    intro c
    unfold cellSlots intRange
    norm_num
  have hacc : gridAcc (CellTables.mk (fun _ => 0) (fun _ => 0)) (fun _ => 0)
      (fun _ => 0) ⟨0, 0, 0⟩ = accZero := by
    unfold gridAcc
    rw [foldl_congr_mem _ _ (fun x _ => x) accZero
      (fun x c _ => by rw [hslots c]; rfl)]
    exact foldl_id _ _
  rw [hacc]
  refine ⟨rfl, rfl, ?_⟩
  unfold finishRulesChecked
  rw [if_pos (show accZero.c1 = 0 ∨ accZero.c3 = 0 from Or.inl rfl)]

/-- interior cell coordinates of any in-domain position: with the real
grid parameters (`gridMin = -110`, cell width 10, 22 cells per side) a
coordinate in `[-100, 100]` maps into `[0, 21)`, so the clamp never
saturates and the agent's own cell is never skipped by the high-side
bound check. -/
theorem gridCoordAxis_bounds {gmin : ℝ} (hg : gmin = -110) {p : ℝ}
    (h1 : -100 ≤ p) (h2 : p ≤ 100) :
    0 ≤ gridCoordAxis gmin p ∧ gridCoordAxis gmin p < 22 := by
  subst hg
  unfold gridCoordAxis clampR
  rw [gridInverseCellWidth_eq, gridSideCount_eq]
  have hu1 : (0 : ℝ) ≤ (p - -110) * (1 / 10) - 0.5 := by linarith
  have hu2 : (p - -110) * (1 / 10) - 0.5 ≤ 20.5 := by linarith
  rw [max_eq_left hu1, min_eq_left (by push_cast; linarith)]
  constructor
  · exact Int.le_floor.mpr (by push_cast; linarith)
  · exact Int.floor_lt.mpr (by push_cast; linarith)

theorem own_cell_mem_searchCells (g : ℤ × ℤ × ℤ)
    (hx : g.1 < gridSideCount) (hy : g.2.1 < gridSideCount)
    (hz : g.2.2 < gridSideCount) :
    gridIndex3Dto1D g.1 g.2.1 g.2.2 gridSideCount ∈ searchCells gridSideCount g := by
  unfold searchCells
  refine List.mem_filterMap.mpr ⟨(0, 0, 0), by unfold neighborOffsets; simp, ?_⟩
  rw [if_neg (by push_neg; refine ⟨?_, ?_, ?_⟩ <;> simp <;> omega)]
  norm_num

/-- if the agent's own slot is among the searched slots (and resolves to
its own position), both rule counts are at least 1. -/
theorem gridAcc_counts_ge_one (t : CellTables) (lookPos lookVel : ℤ → Vec3)
    (myPos : Vec3) (s : ℤ)
    (hsJ : s ∈ ((searchCells gridSideCount (gridCoordOf myPos)).map
      (cellSlots t)).flatten)
    (hself : lookPos s = myPos) :
    1 ≤ (gridAcc t lookPos lookVel myPos).c1 ∧
    1 ≤ (gridAcc t lookPos lookVel myPos).c3 := by
  have key : ∀ f : ℤ → ℝ, (∀ i, 0 ≤ f i) → f s = 1 →
      1 ≤ ((((searchCells gridSideCount (gridCoordOf myPos)).map
        (cellSlots t)).flatten).map f).sum := by
    intro f hnn hfs
    have hmem : (1 : ℝ) ∈ (((searchCells gridSideCount (gridCoordOf myPos)).map
        (cellSlots t)).flatten).map f := by
      have := List.mem_map_of_mem f hsJ
      rwa [hfs] at this
    have h0 : ∀ x ∈ (((searchCells gridSideCount (gridCoordOf myPos)).map
        (cellSlots t)).flatten).map f, 0 ≤ x := by
      intro x hx
      rcases List.mem_map.mp hx with ⟨i, _, rfl⟩
      exact hnn i
    exact List.single_le_sum h0 1 hmem
  rw [gridAcc_flatten, foldl_ruleStep_char]
  constructor
  · show 1 ≤ accZero.c1 + _
    have := key (fun i => contribC1 myPos (lookPos i))
      (fun i => contribC1_nonneg _ _)
      (by show contribC1 myPos (lookPos s) = 1; rw [hself]; exact contribC1_self _)
    rw [show accZero.c1 = 0 from rfl, zero_add]
    exact this
  · show 1 ≤ accZero.c3 + _
    have := key (fun i => contribC3 myPos (lookPos i))
      (fun i => contribC3_nonneg _ _)
      (by show contribC3 myPos (lookPos s) = 1; rw [hself]; exact contribC3_self _)
    rw [show accZero.c3 = 0 from rfl, zero_add]
    exact this

/-- the rule accumulator computed by thread `s` of the scattered velocity
kernel inside `stepSimulationScatteredGrid` (tables produced by the
step's own `kernIdentifyCellStartEnd`, neighbor data resolved through
`arr`). -/
def scatteredThreadAcc (N : ℤ) (st : SimState) (arr : ℤ → ℤ) (s : ℤ) : RuleAcc :=
  gridAcc (kernIdentifyCellStartEnd N (fun j => cellIdOf (st.pos (arr j))) st.tables)
    (fun j => st.pos (arr j)) (fun j => st.vel (arr j)) (st.pos (arr s))

/-- C3 (amended): the source divides the rule averages with **no
guard**; a zero neighbor count would produce a division by zero (NaN),
not a zero contribution (see the counterexample).  However, in every
rule evaluation actually performed by the grid pipeline the candidate
set contains the agent itself — its own cell is freshly recorded by the
locator and is among the searched cells — so both counts are at least 1
and the unguarded divisions never divide by zero. -/
theorem C3_pipeline_counts_positive (N : ℤ) (st : SimState) (arr : ℤ → ℤ)
    (hsort : IsSortedArrangement N (fun b => cellIdOf (st.pos b)) arr)
    (hdom : ∀ b, 0 ≤ b → b < N → |(st.pos b).x| ≤ scene_scale ∧
      |(st.pos b).y| ≤ scene_scale ∧ |(st.pos b).z| ≤ scene_scale)
    (s : ℤ) (hs0 : 0 ≤ s) (hsN : s < N) :
    1 ≤ (scatteredThreadAcc N st arr s).c1 ∧
    1 ≤ (scatteredThreadAcc N st arr s).c3 ∧
    finishRulesChecked (scatteredThreadAcc N st arr s) (st.pos (arr s)) =
      some (finishRules (scatteredThreadAcc N st arr s) (st.pos (arr s))) ∧
    kernUpdateVelNeighborSearchScattered
        (kernIdentifyCellStartEnd N (fun j => cellIdOf (st.pos (arr j))) st.tables)
        arr st.pos st.vel s =
      clampSpeed (st.vel (arr s) +
        finishRules (scatteredThreadAcc N st arr s) (st.pos (arr s))) := by
  obtain ⟨hrange, hinj, hsurj, hmono⟩ := hsort
  obtain ⟨hbx, hby, hbz⟩ :=
    hdom (arr s) (hrange s hs0 hsN).1 (hrange s hs0 hsN).2
  unfold scene_scale at hbx hby hbz
  have hcx := gridCoordAxis_bounds gridMinimum_x (abs_le.mp hbx).1 (abs_le.mp hbx).2
  have hcy := gridCoordAxis_bounds gridMinimum_y (abs_le.mp hby).1 (abs_le.mp hby).2
  have hcz := gridCoordAxis_bounds gridMinimum_z (abs_le.mp hbz).1 (abs_le.mp hbz).2
  have hcmem : cellIdOf (st.pos (arr s)) ∈
      searchCells gridSideCount (gridCoordOf (st.pos (arr s))) := by
    refine own_cell_mem_searchCells (gridCoordOf (st.pos (arr s))) ?_ ?_ ?_ <;>
      rw [gridSideCount_eq]
    · exact hcx.2
    · exact hcy.2
    · exact hcz.2
  have hocc : Occupied N (fun j => cellIdOf (st.pos (arr j))) (cellIdOf (st.pos (arr s))) :=
    ⟨s, hs0, hsN, rfl⟩
  have hrangeIff := identify_range_iff N (fun j => cellIdOf (st.pos (arr j))) st.tables
    hmono (cellIdOf (st.pos (arr s))) hocc
  have hslot : s ∈ cellSlots
      (kernIdentifyCellStartEnd N (fun j => cellIdOf (st.pos (arr j))) st.tables)
      (cellIdOf (st.pos (arr s))) :=
    mem_intRange.mpr ((hrangeIff.2 s).mpr ⟨hs0, hsN, rfl⟩)
  have hsJ : s ∈ ((searchCells gridSideCount (gridCoordOf (st.pos (arr s)))).map
      (cellSlots (kernIdentifyCellStartEnd N (fun j => cellIdOf (st.pos (arr j)))
        st.tables))).flatten :=
    List.mem_flatten.mpr ⟨_, List.mem_map_of_mem _ hcmem, hslot⟩
  obtain ⟨hc1, hc3⟩ := gridAcc_counts_ge_one
    (kernIdentifyCellStartEnd N (fun j => cellIdOf (st.pos (arr j))) st.tables)
    (fun j => st.pos (arr j)) (fun j => st.vel (arr j)) (st.pos (arr s)) s hsJ rfl
  have hc1' : 1 ≤ (scatteredThreadAcc N st arr s).c1 := hc1
  have hc3' : 1 ≤ (scatteredThreadAcc N st arr s).c3 := hc3
  refine ⟨hc1', hc3', ?_, rfl⟩
  unfold finishRulesChecked
  rw [if_neg]
  push_neg
  constructor
  · intro h; rw [h] at hc1'; linarith
  · intro h; rw [h] at hc3'; linarith

theorem C3_pipeline_counts_positive_witness :
    (IsSortedArrangement 1 (fun b => cellIdOf ((fun _ : ℤ => (0 : Vec3)) b))
        (fun _ => 0) ∧
      (0 : ℤ) ≤ 0 ∧ (0 : ℤ) < 1) ∧
    1 ≤ (scatteredThreadAcc 1
      (SimState.mk (fun _ => 0) (fun _ => 0) (CellTables.mk (fun _ => 0) (fun _ => 0)))
      (fun _ => 0) 0).c1 := by
  have hsort : IsSortedArrangement 1 (fun b => cellIdOf ((fun _ : ℤ => (0 : Vec3)) b))
      (fun _ => 0) :=
    ⟨fun s _ _ => ⟨le_refl 0, by norm_num⟩, fun s t h1 h2 h3 h4 _ => by omega,
      fun b h1 h2 => ⟨0, le_refl 0, by norm_num, by show (0 : ℤ) = b; omega⟩,
      fun s t _ _ _ => le_refl _⟩
  refine ⟨⟨hsort, le_refl 0, by norm_num⟩, ?_⟩
  exact (C3_pipeline_counts_positive 1
    (SimState.mk (fun _ => 0) (fun _ => 0) (CellTables.mk (fun _ => 0) (fun _ => 0)))
    (fun _ => 0) hsort
    (fun b _ _ => by simp [scene_scale]) 0 (le_refl 0) (by norm_num)).1

/-! ## C4 — GridCoherent matches GridIndirect up to slot reordering -/

/-- with sorted keys and only-empty stale ranges, every slot produced by
a cell bucket of the step's tables is a valid slot in `[0, N)`. -/
theorem slots_in_range (N : ℤ) (arr : ℤ → ℤ) (st : SimState)
    (hmono : ∀ s t, 0 ≤ s → s ≤ t → t < N →
      sortedKeys arr st s ≤ sortedKeys arr st t)
    (hempty : ∀ c, st.tables.cellEnd c ≤ st.tables.cellStart c)
    (c j : ℤ) (hj : j ∈ cellSlots (stepTables N arr st) c) : 0 ≤ j ∧ j < N := by
  unfold cellSlots stepTables at hj
  rw [mem_intRange] at hj
  by_cases hocc : Occupied N (sortedKeys arr st) c
  · have h := ((identify_range_iff N (sortedKeys arr st) st.tables hmono c hocc).2 j).mp hj
    exact ⟨h.1, h.2.1⟩
  · exfalso
    obtain ⟨h1, h2⟩ := identify_unoccupied N (sortedKeys arr st) st.tables c hocc
    rw [h1, h2] at hj
    have := hempty c
    omega

theorem gridAcc_congr (t : CellTables) (p1 v1 p2 v2 : ℤ → Vec3) (myPos : Vec3)
    (h : ∀ j ∈ ((searchCells gridSideCount (gridCoordOf myPos)).map
      (cellSlots t)).flatten, p1 j = p2 j ∧ v1 j = v2 j) :
    gridAcc t p1 v1 myPos = gridAcc t p2 v2 myPos := by
  rw [gridAcc_flatten, gridAcc_flatten]
  exact foldl_congr_mem _ _ _ _ fun x j hj => by rw [(h j hj).1, (h j hj).2]

/-- the scattered kernel's output buffer, read back at boid `arr s`, is
thread `s`'s result (the thread result depends on its index only through
`arr`). -/
theorem scatteredVelBuf_at (N : ℤ) (arr : ℤ → ℤ) (st : SimState) (s : ℤ)
    (hs0 : 0 ≤ s) (hsN : s < N) :
    scatteredVelBuf N arr st (arr s) =
    kernUpdateVelNeighborSearchScattered (stepTables N arr st) arr st.pos st.vel s := by
  unfold scatteredVelBuf
  have hex : ∃ s', 0 ≤ s' ∧ s' < N ∧ arr s' = arr s := ⟨s, hs0, hsN, rfl⟩
  rw [dif_pos hex]
  unfold kernUpdateVelNeighborSearchScattered
  rw [hex.choose_spec.2.2]

/-- slot `s` of the coherent velocity output equals boid `arr s` of the
scattered velocity output. -/
theorem coherent_vel_eq (N : ℤ) (arr : ℤ → ℤ) (st : SimState)
    (hsort : IsSortedArrangement N (fun b => cellIdOf (st.pos b)) arr)
    (hempty : ∀ c, st.tables.cellEnd c ≤ st.tables.cellStart c)
    (s : ℤ) (hs0 : 0 ≤ s) (hsN : s < N) :
    coherentVelOut N arr st s = scatteredVelBuf N arr st (arr s) := by
  obtain ⟨hrange, hinj, hsurj, hmono⟩ := hsort
  rw [scatteredVelBuf_at N arr st s hs0 hsN]
  unfold coherentVelOut
  rw [if_pos ⟨hs0, hsN⟩]
  unfold kernUpdateVelNeighborSearchCoherent kernUpdateVelNeighborSearchScattered
  have hp2 : coherentPos2 N arr st s = st.pos (arr s) := by
    unfold coherentPos2; rw [if_pos ⟨hs0, hsN⟩]
  have hv2 : coherentVel2 N arr st s = st.vel (arr s) := by
    unfold coherentVel2; rw [if_pos ⟨hs0, hsN⟩]
  rw [hp2, hv2]
  unfold gridVelUpdate
  have hacc := gridAcc_congr (stepTables N arr st)
    (coherentPos2 N arr st) (coherentVel2 N arr st)
    (fun j => st.pos (arr j)) (fun j => st.vel (arr j)) (st.pos (arr s)) ?_
  · rw [hacc]
  · intro j hj
    rcases List.mem_flatten.mp hj with ⟨l, hl, hjl⟩
    rcases List.mem_map.mp hl with ⟨c, _, rfl⟩
    obtain ⟨hj0, hjN⟩ := slots_in_range N arr st hmono hempty c j hjl
    constructor
    · unfold coherentPos2; rw [if_pos ⟨hj0, hjN⟩]
    · unfold coherentVel2; rw [if_pos ⟨hj0, hjN⟩]

/-- slot `s` of the coherent position output equals boid `arr s` of the
scattered position output. -/
theorem coherent_pos_eq (N : ℤ) (dt : ℝ) (arr : ℤ → ℤ) (st : SimState)
    (hsort : IsSortedArrangement N (fun b => cellIdOf (st.pos b)) arr)
    (hempty : ∀ c, st.tables.cellEnd c ≤ st.tables.cellStart c)
    (s : ℤ) (hs0 : 0 ≤ s) (hsN : s < N) :
    (stepSimulationCoherentGrid N dt arr st).pos s =
    (stepSimulationScatteredGrid N dt arr st).pos (arr s) := by
  have hb := hsort.1 s hs0 hsN
  show kernUpdatePos N dt (coherentPos2 N arr st) (coherentVelOut N arr st) s =
    kernUpdatePos N dt st.pos (scatteredVelBuf N arr st) (arr s)
  unfold kernUpdatePos
  rw [if_pos ⟨hs0, hsN⟩, if_pos hb]
  rw [show coherentPos2 N arr st s = st.pos (arr s) by
    unfold coherentPos2; rw [if_pos ⟨hs0, hsN⟩]]
  rw [coherent_vel_eq N arr st hsort hempty s hs0 hsN]

/-- C4: given identical inputs, one GridCoherent step and one
GridIndirect step produce the same unordered multiset of resulting
(position, velocity) pairs; in fact the results agree pointwise up to
the slot reordering of agent ids: slot `s` of the coherent output holds
exactly boid `arr s` of the scattered output. -/
theorem C4_coherent_matches_scattered (N : ℤ) (dt : ℝ) (arr : ℤ → ℤ) (st : SimState)
    (hsort : IsSortedArrangement N (fun b => cellIdOf (st.pos b)) arr)
    (hempty : ∀ c, st.tables.cellEnd c ≤ st.tables.cellStart c) :
    (∀ s, 0 ≤ s → s < N →
      (stepSimulationCoherentGrid N dt arr st).vel s =
        (stepSimulationScatteredGrid N dt arr st).vel (arr s) ∧
      (stepSimulationCoherentGrid N dt arr st).pos s =
        (stepSimulationScatteredGrid N dt arr st).pos (arr s)) ∧
    (↑((intRange 0 N).map fun s =>
        ((stepSimulationCoherentGrid N dt arr st).pos s,
         (stepSimulationCoherentGrid N dt arr st).vel s)) : Multiset (Vec3 × Vec3)) =
    ↑((intRange 0 N).map fun b =>
        ((stepSimulationScatteredGrid N dt arr st).pos b,
         (stepSimulationScatteredGrid N dt arr st).vel b)) := by
  obtain ⟨hrange, hinj, hsurj, hmono⟩ := hsort
  have hpoint : ∀ s, 0 ≤ s → s < N →
      (stepSimulationCoherentGrid N dt arr st).vel s =
        (stepSimulationScatteredGrid N dt arr st).vel (arr s) ∧
      (stepSimulationCoherentGrid N dt arr st).pos s =
        (stepSimulationScatteredGrid N dt arr st).pos (arr s) := by
    intro s hs0 hsN
    exact ⟨coherent_vel_eq N arr st ⟨hrange, hinj, hsurj, hmono⟩ hempty s hs0 hsN,
      coherent_pos_eq N dt arr st ⟨hrange, hinj, hsurj, hmono⟩ hempty s hs0 hsN⟩
  refine ⟨hpoint, ?_⟩
  have harr : (↑((intRange 0 N).map arr) : Multiset ℤ) = ↑(intRange 0 N) := by
    refine (Multiset.Nodup.ext ?_ ?_).mpr ?_
    · refine Multiset.coe_nodup.mpr (List.Nodup.map_on ?_ (intRange_nodup 0 N))
      intro x hx y hy hxy
      rw [mem_intRange] at hx hy
      exact hinj x y hx.1 hx.2 hy.1 hy.2 hxy
    · exact Multiset.coe_nodup.mpr (intRange_nodup 0 N)
    · intro b
      simp only [Multiset.mem_coe, List.mem_map, mem_intRange]
      constructor
      · rintro ⟨s, hs, rfl⟩
        exact hrange s hs.1 hs.2
      · intro hb
        obtain ⟨s, h1, h2, h3⟩ := hsurj b hb.1 hb.2
        exact ⟨s, ⟨h1, h2⟩, h3⟩
  calc (↑((intRange 0 N).map fun s =>
        ((stepSimulationCoherentGrid N dt arr st).pos s,
         (stepSimulationCoherentGrid N dt arr st).vel s)) : Multiset (Vec3 × Vec3))
      = Multiset.map (fun s =>
          ((stepSimulationCoherentGrid N dt arr st).pos s,
           (stepSimulationCoherentGrid N dt arr st).vel s)) ↑(intRange 0 N) := by
        rw [Multiset.map_coe]
    _ = Multiset.map (fun s =>
          ((stepSimulationScatteredGrid N dt arr st).pos (arr s),
           (stepSimulationScatteredGrid N dt arr st).vel (arr s))) ↑(intRange 0 N) := by
        refine Multiset.map_congr rfl ?_
        intro s hs
        rw [Multiset.mem_coe, mem_intRange] at hs
        obtain ⟨hv, hp⟩ := hpoint s hs.1 hs.2
        rw [hv, hp]
    _ = Multiset.map (fun b =>
          ((stepSimulationScatteredGrid N dt arr st).pos b,
           (stepSimulationScatteredGrid N dt arr st).vel b))
          (Multiset.map arr ↑(intRange 0 N)) := by
        rw [Multiset.map_map]
        rfl
    _ = Multiset.map (fun b =>
          ((stepSimulationScatteredGrid N dt arr st).pos b,
           (stepSimulationScatteredGrid N dt arr st).vel b)) ↑(intRange 0 N) := by
        rw [Multiset.map_coe, harr]
    _ = ↑((intRange 0 N).map fun b =>
          ((stepSimulationScatteredGrid N dt arr st).pos b,
           (stepSimulationScatteredGrid N dt arr st).vel b)) := by
        rw [Multiset.map_coe]

theorem C4_coherent_matches_scattered_witness :
    (IsSortedArrangement 1 (fun b => cellIdOf ((fun _ : ℤ => (0 : Vec3)) b))
        (fun _ => 0) ∧
      (∀ c : ℤ, (CellTables.mk (fun _ => 0) (fun _ => 0)).cellEnd c ≤
        (CellTables.mk (fun _ => 0) (fun _ => 0)).cellStart c)) ∧
    (↑((intRange 0 1).map fun s =>
        ((stepSimulationCoherentGrid 1 1 (fun _ => 0)
          (SimState.mk (fun _ => 0) (fun _ => 0)
            (CellTables.mk (fun _ => 0) (fun _ => 0)))).pos s,
         (stepSimulationCoherentGrid 1 1 (fun _ => 0)
          (SimState.mk (fun _ => 0) (fun _ => 0)
            (CellTables.mk (fun _ => 0) (fun _ => 0)))).vel s)) :
      Multiset (Vec3 × Vec3)) =
    ↑((intRange 0 1).map fun b =>
        ((stepSimulationScatteredGrid 1 1 (fun _ => 0)
          (SimState.mk (fun _ => 0) (fun _ => 0)
            (CellTables.mk (fun _ => 0) (fun _ => 0)))).pos b,
         (stepSimulationScatteredGrid 1 1 (fun _ => 0)
          (SimState.mk (fun _ => 0) (fun _ => 0)
            (CellTables.mk (fun _ => 0) (fun _ => 0)))).vel b)) := by
  have hsort : IsSortedArrangement 1 (fun b => cellIdOf ((fun _ : ℤ => (0 : Vec3)) b))
      (fun _ => 0) :=
    ⟨fun s _ _ => ⟨le_refl 0, by norm_num⟩, fun s t h1 h2 h3 h4 _ => by omega,
      fun b h1 h2 => ⟨0, le_refl 0, by norm_num, by show (0 : ℤ) = b; omega⟩,
      fun s t _ _ _ => le_refl _⟩
  have hempty : ∀ c : ℤ, (CellTables.mk (fun _ => 0) (fun _ => 0)).cellEnd c ≤
      (CellTables.mk (fun _ => 0) (fun _ => 0)).cellStart c := fun _ => le_refl 0
  exact ⟨⟨hsort, hempty⟩,
    (C4_coherent_matches_scattered 1 1 (fun _ => 0)
      (SimState.mk (fun _ => 0) (fun _ => 0) (CellTables.mk (fun _ => 0) (fun _ => 0)))
      hsort hempty).2⟩

/-! ## Concrete evaluation helpers for C1 and C2 -/

theorem gridCoordAxis_eval {gmin : ℝ} (hg : gmin = -110) (p : ℝ) (n : ℤ)
    (hn0 : 0 ≤ n) (hn21 : n ≤ 21)
    (h1 : (n : ℝ) ≤ (p - gmin) * (1 / 10) - 0.5)
    (h2 : (p - gmin) * (1 / 10) - 0.5 < n + 1) :
    gridCoordAxis gmin p = n := by
  subst hg
  have hn0' : (0 : ℝ) ≤ (n : ℝ) := by exact_mod_cast hn0
  have hn21' : (n : ℝ) ≤ 21 := by exact_mod_cast hn21
  unfold gridCoordAxis clampR
  rw [gridInverseCellWidth_eq, gridSideCount_eq]
  rw [max_eq_left (by linarith), min_eq_left (by push_cast; linarith)]
  exact Int.floor_eq_iff.mpr ⟨h1, by linarith⟩

theorem gridCoordOf_eval (p : Vec3) (cx cy cz : ℤ)
    (hx : gridCoordAxis gridMinimum.x p.x = cx)
    (hy : gridCoordAxis gridMinimum.y p.y = cy)
    (hz : gridCoordAxis gridMinimum.z p.z = cz) :
    gridCoordOf p = (cx, cy, cz) := by
  unfold gridCoordOf
  rw [hx, hy, hz]

theorem cellIdOf_eval (p : Vec3) (cx cy cz n : ℤ)
    (hx : gridCoordAxis gridMinimum.x p.x = cx)
    (hy : gridCoordAxis gridMinimum.y p.y = cy)
    (hz : gridCoordAxis gridMinimum.z p.z = cz)
    (hn : cx + cy * 22 + cz * 22 * 22 = n) :
    cellIdOf p = n := by
  unfold cellIdOf gridIndex3Dto1D
  rw [gridSideCount_eq]
  rw [show (gridCoordOf p).1 = cx by unfold gridCoordOf; rw [hx]]
  rw [show (gridCoordOf p).2.1 = cy by unfold gridCoordOf; rw [hy]]
  rw [show (gridCoordOf p).2.2 = cz by unfold gridCoordOf; rw [hz]]
  exact hn

theorem ruleStep_near (p n v : Vec3) (a : RuleAcc) (h : Vec3.dist n p < rule2Distance) :
    ruleStep p a n v =
      ⟨a.r1 + n, a.c1 + 1, a.r2 + (p - n), a.r3 + v, a.c3 + 1⟩ := by
  have h1 : Vec3.dist n p < rule1Distance :=
    lt_trans h (by unfold rule1Distance rule2Distance; norm_num)
  have h3 : Vec3.dist n p < rule3Distance :=
    lt_trans h (by unfold rule3Distance rule2Distance; norm_num)
  unfold ruleStep
  rw [if_pos h1, if_pos h1, if_pos h, if_pos h3, if_pos h3]

theorem ruleStep_self (p v : Vec3) (a : RuleAcc) :
    ruleStep p a p v = ⟨a.r1 + p, a.c1 + 1, a.r2, a.r3 + v, a.c3 + 1⟩ := by
  rw [ruleStep_near p p v a (by rw [Vec3.dist_self]; unfold rule2Distance; norm_num)]
  rw [Vec3.sub_self, add_zero]

theorem coords_of_mk (a b c : ℝ) (nx ny nz : ℤ)
    (hx0 : 0 ≤ nx) (hx21 : nx ≤ 21)
    (hx1 : (nx : ℝ) ≤ (a + 110) * (1 / 10) - 0.5)
    (hx2 : (a + 110) * (1 / 10) - 0.5 < nx + 1)
    (hy0 : 0 ≤ ny) (hy21 : ny ≤ 21)
    (hy1 : (ny : ℝ) ≤ (b + 110) * (1 / 10) - 0.5)
    (hy2 : (b + 110) * (1 / 10) - 0.5 < ny + 1)
    (hz0 : 0 ≤ nz) (hz21 : nz ≤ 21)
    (hz1 : (nz : ℝ) ≤ (c + 110) * (1 / 10) - 0.5)
    (hz2 : (c + 110) * (1 / 10) - 0.5 < nz + 1) :
    gridCoordOf ⟨a, b, c⟩ = (nx, ny, nz) := by
  unfold gridCoordOf
  rw [show (Vec3.mk a b c).x = a from rfl, show (Vec3.mk a b c).y = b from rfl,
    show (Vec3.mk a b c).z = c from rfl]
  rw [gridCoordAxis_eval gridMinimum_x a nx hx0 hx21
      (by rw [gridMinimum_x]; linarith) (by rw [gridMinimum_x]; linarith),
    gridCoordAxis_eval gridMinimum_y b ny hy0 hy21
      (by rw [gridMinimum_y]; linarith) (by rw [gridMinimum_y]; linarith),
    gridCoordAxis_eval gridMinimum_z c nz hz0 hz21
      (by rw [gridMinimum_z]; linarith) (by rw [gridMinimum_z]; linarith)]

theorem cellIdOf_of_coords (p : Vec3) (nx ny nz n : ℤ)
    (h : gridCoordOf p = (nx, ny, nz)) (hn : nx + ny * 22 + nz * 22 * 22 = n) :
    cellIdOf p = n := by
  unfold cellIdOf gridIndex3Dto1D
  rw [h, gridSideCount_eq]
  dsimp only
  exact hn

/-! ## C2 — the concrete two-step staleness scenario -/

/-- initial state of the C2 scenario: one boid at `(-100,-100,-100)` with
velocity `(0.5, 0, 0)`; the (never-reset) cell tables happen to hold 0
everywhere (every range empty). -/
def c2State0 : SimState :=
  { pos := fun _ => ⟨-100, -100, -100⟩,
    vel := fun _ => ⟨0.5, 0, 0⟩,
    tables := { cellStart := fun _ => 0, cellEnd := fun _ => 0 } }

/-- the (only possible) sort arrangement for one boid. -/
def c2Arr : ℤ → ℤ := fun _ => 0

theorem c2_key0 : cellIdOf (⟨-100, -100, -100⟩ : Vec3) = 0 :=
  cellIdOf_of_coords ⟨-100, -100, -100⟩ 0 0 0 0
    (coords_of_mk (-100) (-100) (-100) 0 0 0
      (by norm_num) (by norm_num) (by norm_num) (by norm_num)
      (by norm_num) (by norm_num) (by norm_num) (by norm_num)
      (by norm_num) (by norm_num) (by norm_num) (by norm_num))
    (by norm_num)

theorem c2_tables1_start (c : ℤ) :
    (stepTables 1 c2Arr c2State0).cellStart c = 0 := by
  unfold stepTables kernIdentifyCellStartEnd
  rw [show intRange 0 1 = [0] from by decide]
  rw [List.foldl_cons, List.foldl_nil]
  unfold identifyStep
  dsimp only
  rw [if_pos (Or.inl rfl)]
  rw [show sortedKeys c2Arr c2State0 0 = 0 from c2_key0]
  rcases eq_or_ne c 0 with h | h
  · rw [h, Function.update_same]
  · rw [Function.update_noteq h]; rfl

theorem c2_tables1_end (c : ℤ) :
    (stepTables 1 c2Arr c2State0).cellEnd c = if c = 0 then 1 else 0 := by
  unfold stepTables kernIdentifyCellStartEnd
  rw [show intRange 0 1 = [0] from by decide]
  rw [List.foldl_cons, List.foldl_nil]
  unfold identifyStep
  dsimp only
  rw [if_pos (Or.inl (by norm_num : (0 : ℤ) + 1 = 1))]
  rw [show sortedKeys c2Arr c2State0 0 = 0 from c2_key0]
  rcases eq_or_ne c 0 with h | h
  · rw [h, Function.update_same, if_pos rfl]
    norm_num
  · rw [Function.update_noteq h, if_neg h]; rfl

theorem c2_coords0 : gridCoordOf (⟨-100, -100, -100⟩ : Vec3) = (0, 0, 0) :=
  coords_of_mk (-100) (-100) (-100) 0 0 0
    (by norm_num) (by norm_num) (by norm_num) (by norm_num)
    (by norm_num) (by norm_num) (by norm_num) (by norm_num)
    (by norm_num) (by norm_num) (by norm_num) (by norm_num)

theorem c2_slots_own : cellSlots (stepTables 1 c2Arr c2State0) 0 = [0] := by
  unfold cellSlots
  rw [c2_tables1_start, c2_tables1_end, if_pos rfl]
  decide

theorem c2_slots_other (c : ℤ) (hc : c ≠ 0) :
    cellSlots (stepTables 1 c2Arr c2State0) c = [] := by
  unfold cellSlots
  rw [c2_tables1_start, c2_tables1_end, if_neg hc]
  decide

theorem c2_acc1 : gridAcc (stepTables 1 c2Arr c2State0)
    (fun j => c2State0.pos (c2Arr j)) (fun j => c2State0.vel (c2Arr j))
    ⟨-100, -100, -100⟩ =
    ⟨⟨-100, -100, -100⟩, 1, 0, ⟨0.5, 0, 0⟩, 1⟩ := by
  unfold gridAcc
  rw [c2_coords0, gridSideCount_eq,
    show searchCells 22 (0, 0, 0) = [0, 1, 22, 23, 484, 485, 506, 507] from by decide]
  rw [List.foldl_cons, List.foldl_cons, List.foldl_cons, List.foldl_cons,
    List.foldl_cons, List.foldl_cons, List.foldl_cons, List.foldl_cons,
    List.foldl_nil]
  rw [c2_slots_own, c2_slots_other 1 (by norm_num), c2_slots_other 22 (by norm_num),
    c2_slots_other 23 (by norm_num), c2_slots_other 484 (by norm_num),
    c2_slots_other 485 (by norm_num), c2_slots_other 506 (by norm_num),
    c2_slots_other 507 (by norm_num)]
  rw [List.foldl_cons, List.foldl_nil, List.foldl_nil, List.foldl_nil,
    List.foldl_nil, List.foldl_nil, List.foldl_nil, List.foldl_nil, List.foldl_nil]
  dsimp only
  rw [show c2State0.pos (c2Arr 0) = ⟨-100, -100, -100⟩ from rfl,
    show c2State0.vel (c2Arr 0) = ⟨0.5, 0, 0⟩ from rfl]
  rw [ruleStep_self]
  unfold accZero
  simp

theorem c2_vel1 : (stepSimulationScatteredGrid 1 20 c2Arr c2State0).vel 0 =
    ⟨0.55, 0, 0⟩ := by
  show scatteredVelBuf 1 c2Arr c2State0 0 = _
  have h' : scatteredVelBuf 1 c2Arr c2State0 0 =
      kernUpdateVelNeighborSearchScattered (stepTables 1 c2Arr c2State0) c2Arr
        c2State0.pos c2State0.vel 0 :=
    scatteredVelBuf_at 1 c2Arr c2State0 0 (le_refl 0) (by norm_num)
  rw [h']
  unfold kernUpdateVelNeighborSearchScattered gridVelUpdate
  rw [show c2State0.pos (c2Arr 0) = ⟨-100, -100, -100⟩ from rfl,
    show c2State0.vel (c2Arr 0) = ⟨0.5, 0, 0⟩ from rfl]
  rw [c2_acc1]
  have hfin : finishRules ⟨⟨-100, -100, -100⟩, 1, 0, ⟨0.5, 0, 0⟩, 1⟩
      (⟨-100, -100, -100⟩ : Vec3) = ⟨0.05, 0, 0⟩ := by
    unfold finishRules rule1Scale rule2Scale rule3Scale
    ext <;> simp <;> norm_num
  rw [hfin,
    show (⟨0.5, 0, 0⟩ : Vec3) + ⟨0.05, 0, 0⟩ = ⟨0.55, 0, 0⟩ from by
      ext <;> simp <;> norm_num]
  exact clampSpeed_of_le (by
    unfold maxSpeed
    exact le_of_lt ((Vec3.len_lt_iff _ one_pos).mpr (by norm_num)))

theorem c2_pos1 : (stepSimulationScatteredGrid 1 20 c2Arr c2State0).pos 0 =
    ⟨-89, -100, -100⟩ := by
  show kernUpdatePos 1 20 c2State0.pos (scatteredVelBuf 1 c2Arr c2State0) 0 = _
  unfold kernUpdatePos
  rw [if_pos ⟨le_refl 0, by norm_num⟩]
  rw [show c2State0.pos 0 = ⟨-100, -100, -100⟩ from rfl]
  rw [show scatteredVelBuf 1 c2Arr c2State0 0 = ⟨0.55, 0, 0⟩ from c2_vel1]
  rw [show (⟨-100, -100, -100⟩ : Vec3) + (⟨0.55, 0, 0⟩ : Vec3) * (20 : ℝ) =
      ⟨-89, -100, -100⟩ from by ext <;> simp <;> norm_num]
  unfold wrapVec
  rw [wrapCoord_of_mem (by unfold scene_scale; norm_num) (by unfold scene_scale; norm_num),
    wrapCoord_of_mem (by unfold scene_scale; norm_num) (by unfold scene_scale; norm_num)]

theorem c2_key1 : cellIdOf (⟨-89, -100, -100⟩ : Vec3) = 1 :=
  cellIdOf_of_coords ⟨-89, -100, -100⟩ 1 0 0 1
    (coords_of_mk (-89) (-100) (-100) 1 0 0
      (by norm_num) (by norm_num) (by norm_num) (by norm_num)
      (by norm_num) (by norm_num) (by norm_num) (by norm_num)
      (by norm_num) (by norm_num) (by norm_num) (by norm_num))
    (by norm_num)

/-- C2 (code bug): neither grid step function ever calls
`kernResetIntBuffer` — the cell tables are not reset before boundary
detection.  Concretely: one boid starts in cell 0, and after one step it
has moved to cell 1.  After the **second** step, cell 0 has zero
occupants, yet its table entry still records the previous step's
non-empty range `[0, 1)` instead of an empty sentinel. -/
theorem C2_no_reset_stale_tables :
    ((stepSimulationScatteredGrid 1 20 c2Arr
        (stepSimulationScatteredGrid 1 20 c2Arr c2State0)).tables.cellStart 0 = 0 ∧
     (stepSimulationScatteredGrid 1 20 c2Arr
        (stepSimulationScatteredGrid 1 20 c2Arr c2State0)).tables.cellEnd 0 = 1) ∧
    (∀ b, 0 ≤ b → b < 1 →
      cellIdOf ((stepSimulationScatteredGrid 1 20 c2Arr c2State0).pos b) ≠ 0) := by
  have hkey2 : sortedKeys c2Arr (stepSimulationScatteredGrid 1 20 c2Arr c2State0) 0
      = 1 := by
    show cellIdOf ((stepSimulationScatteredGrid 1 20 c2Arr c2State0).pos (c2Arr 0)) = 1
    rw [show (stepSimulationScatteredGrid 1 20 c2Arr c2State0).pos (c2Arr 0) =
      ⟨-89, -100, -100⟩ from c2_pos1]
    exact c2_key1
  constructor
  · show ((stepTables 1 c2Arr (stepSimulationScatteredGrid 1 20 c2Arr c2State0)).cellStart 0
        = 0) ∧
      ((stepTables 1 c2Arr (stepSimulationScatteredGrid 1 20 c2Arr c2State0)).cellEnd 0
        = 1)
    unfold stepTables kernIdentifyCellStartEnd
    rw [show intRange 0 1 = [0] from by decide]
    rw [List.foldl_cons, List.foldl_nil]
    unfold identifyStep
    dsimp only
    rw [if_pos (Or.inl rfl), if_pos (Or.inl (by norm_num : (0 : ℤ) + 1 = 1))]
    rw [hkey2]
    rw [Function.update_noteq (by norm_num : (0 : ℤ) ≠ 1),
      Function.update_noteq (by norm_num : (0 : ℤ) ≠ 1)]
    exact ⟨c2_tables1_start 0, (c2_tables1_end 0).trans (if_pos rfl)⟩
  · intro b hb0 hb1
    have hb : b = 0 := by omega
    subst hb
    rw [show (stepSimulationScatteredGrid 1 20 c2Arr c2State0).pos 0 =
      ⟨-89, -100, -100⟩ from c2_pos1, c2_key1]
    norm_num

/-! ## C1 — brute force vs scattered grid on two close boids -/

/-- two boids straddling the shifted cell boundary at `x = -95`:
boid 0 ("p") at `(-94.9, 0, 0)`, boid 1 ("q") at `(-95.1, 0, 0)`,
0.2 apart — well inside every interaction radius — but in different
grid cells (5061 and 5060).  Velocities zero; tables hold 0 everywhere
(every range empty). -/
def c1State0 : SimState :=
  { pos := fun b => if b = 1 then ⟨-95.1, 0, 0⟩ else ⟨-94.9, 0, 0⟩,
    vel := fun _ => 0,
    tables := { cellStart := fun _ => 0, cellEnd := fun _ => 0 } }

/-- the sort arrangement: slot 0 holds boid 1 (key 5060), slot 1 holds
boid 0 (key 5061). -/
def c1Arr : ℤ → ℤ := fun s => 1 - s

theorem c1_coordsP : gridCoordOf (⟨-94.9, 0, 0⟩ : Vec3) = (1, 10, 10) :=
  coords_of_mk (-94.9) 0 0 1 10 10
    (by norm_num) (by norm_num) (by norm_num) (by norm_num)
    (by norm_num) (by norm_num) (by norm_num) (by norm_num)
    (by norm_num) (by norm_num) (by norm_num) (by norm_num)

theorem c1_keyP : cellIdOf (⟨-94.9, 0, 0⟩ : Vec3) = 5061 :=
  cellIdOf_of_coords ⟨-94.9, 0, 0⟩ 1 10 10 5061 c1_coordsP (by norm_num)

theorem c1_keyQ : cellIdOf (⟨-95.1, 0, 0⟩ : Vec3) = 5060 :=
  cellIdOf_of_coords ⟨-95.1, 0, 0⟩ 0 10 10 5060
    (coords_of_mk (-95.1) 0 0 0 10 10
      (by norm_num) (by norm_num) (by norm_num) (by norm_num)
      (by norm_num) (by norm_num) (by norm_num) (by norm_num)
      (by norm_num) (by norm_num) (by norm_num) (by norm_num))
    (by norm_num)

theorem c1_pos0 : c1State0.pos 0 = ⟨-94.9, 0, 0⟩ := by
  unfold c1State0
  norm_num

theorem c1_pos1 : c1State0.pos 1 = ⟨-95.1, 0, 0⟩ := by
  unfold c1State0
  norm_num

theorem c1_sk0 : sortedKeys c1Arr c1State0 0 = 5060 := by
  show cellIdOf (c1State0.pos (c1Arr 0)) = 5060
  rw [show c1Arr 0 = 1 from by unfold c1Arr; norm_num, c1_pos1]
  exact c1_keyQ

theorem c1_sk1 : sortedKeys c1Arr c1State0 1 = 5061 := by
  show cellIdOf (c1State0.pos (c1Arr 1)) = 5061
  rw [show c1Arr 1 = 0 from by unfold c1Arr; norm_num, c1_pos0]
  exact c1_keyP

theorem c1_start_5061 : (stepTables 2 c1Arr c1State0).cellStart 5061 = 1 := by
  unfold stepTables kernIdentifyCellStartEnd
  refine foldl_identify_start_unique 2 (sortedKeys c1Arr c1State0) 5061 1
    ⟨Or.inr ?_, c1_sk1⟩ _ _ (mem_intRange.mpr ⟨by norm_num, by norm_num⟩) ?_
  · rw [show (1 : ℤ) - 1 = 0 from by norm_num, c1_sk0, c1_sk1]
    norm_num
  · intro i hi hw
    obtain ⟨hi0, hi2⟩ := mem_intRange.mp hi
    have hcase : i = 0 ∨ i = 1 := by omega
    rcases hcase with h | h
    · exfalso
      have h2 := hw.2
      rw [h, c1_sk0] at h2
      exact absurd h2 (by norm_num)
    · exact h

theorem c1_end_5061 : (stepTables 2 c1Arr c1State0).cellEnd 5061 = 2 := by
  unfold stepTables kernIdentifyCellStartEnd
  have h := foldl_identify_end_unique 2 (sortedKeys c1Arr c1State0) 5061 1
    ⟨Or.inl (by norm_num), c1_sk1⟩ (intRange 0 2) c1State0.tables
    (mem_intRange.mpr ⟨by norm_num, by norm_num⟩) ?_
  · rw [h]
    norm_num
  · intro i hi hw
    obtain ⟨hi0, hi2⟩ := mem_intRange.mp hi
    have hcase : i = 0 ∨ i = 1 := by omega
    rcases hcase with h | h
    · exfalso
      have h2 := hw.2
      rw [h, c1_sk0] at h2
      exact absurd h2 (by norm_num)
    · exact h

theorem c1_tables_other (c : ℤ) (h60 : c ≠ 5060) (h61 : c ≠ 5061) :
    (stepTables 2 c1Arr c1State0).cellStart c = 0 ∧
    (stepTables 2 c1Arr c1State0).cellEnd c = 0 := by
  have hw : ∀ i ∈ intRange 0 2, sortedKeys c1Arr c1State0 i ≠ c := by
    intro i hi
    obtain ⟨hi0, hi2⟩ := mem_intRange.mp hi
    have : i = 0 ∨ i = 1 := by omega
    rcases this with h | h
    · rw [h, c1_sk0]; exact fun hc => h60 hc.symm
    · rw [h, c1_sk1]; exact fun hc => h61 hc.symm
  unfold stepTables kernIdentifyCellStartEnd
  constructor
  · rw [foldl_identify_start_none 2 (sortedKeys c1Arr c1State0) c _ _
      (fun i hi hwi => hw i hi hwi.2)]
    rfl
  · rw [foldl_identify_end_none 2 (sortedKeys c1Arr c1State0) c _ _
      (fun i hi hwi => hw i hi hwi.2)]
    rfl

theorem c1_slots_5061 : cellSlots (stepTables 2 c1Arr c1State0) 5061 = [1] := by
  unfold cellSlots
  rw [c1_start_5061, c1_end_5061]
  decide

theorem c1_slots_other (c : ℤ) (h60 : c ≠ 5060) (h61 : c ≠ 5061) :
    cellSlots (stepTables 2 c1Arr c1State0) c = [] := by
  unfold cellSlots
  rw [(c1_tables_other c h60 h61).1, (c1_tables_other c h60 h61).2]
  decide

theorem c1_acc_scattered : gridAcc (stepTables 2 c1Arr c1State0)
    (fun j => c1State0.pos (c1Arr j)) (fun j => c1State0.vel (c1Arr j))
    ⟨-94.9, 0, 0⟩ = ⟨⟨-94.9, 0, 0⟩, 1, 0, 0, 1⟩ := by
  unfold gridAcc
  rw [c1_coordsP, gridSideCount_eq,
    show searchCells 22 (1, 10, 10) = [5061, 5062, 5083, 5084, 5545, 5546, 5567, 5568]
      from by decide]
  rw [List.foldl_cons, List.foldl_cons, List.foldl_cons, List.foldl_cons,
    List.foldl_cons, List.foldl_cons, List.foldl_cons, List.foldl_cons,
    List.foldl_nil]
  rw [c1_slots_5061, c1_slots_other 5062 (by norm_num) (by norm_num),
    c1_slots_other 5083 (by norm_num) (by norm_num),
    c1_slots_other 5084 (by norm_num) (by norm_num),
    c1_slots_other 5545 (by norm_num) (by norm_num),
    c1_slots_other 5546 (by norm_num) (by norm_num),
    c1_slots_other 5567 (by norm_num) (by norm_num),
    c1_slots_other 5568 (by norm_num) (by norm_num)]
  rw [List.foldl_cons, List.foldl_nil, List.foldl_nil, List.foldl_nil,
    List.foldl_nil, List.foldl_nil, List.foldl_nil, List.foldl_nil, List.foldl_nil]
  dsimp only
  rw [show c1Arr 1 = 0 from by unfold c1Arr; norm_num, c1_pos0,
    show c1State0.vel 0 = 0 from rfl]
  rw [ruleStep_self]
  unfold accZero
  simp

theorem c1_vel_scattered :
    (stepSimulationScatteredGrid 2 1 c1Arr c1State0).vel 0 = 0 := by
  show scatteredVelBuf 2 c1Arr c1State0 0 = _
  have h := scatteredVelBuf_at 2 c1Arr c1State0 1 (by norm_num) (by norm_num)
  rw [show c1Arr 1 = 0 from by unfold c1Arr; norm_num] at h
  rw [h]
  unfold kernUpdateVelNeighborSearchScattered gridVelUpdate
  rw [show c1Arr 1 = 0 from by unfold c1Arr; norm_num, c1_pos0,
    show c1State0.vel 0 = 0 from rfl]
  rw [c1_acc_scattered]
  have hfin : finishRules ⟨⟨-94.9, 0, 0⟩, 1, 0, 0, 1⟩ (⟨-94.9, 0, 0⟩ : Vec3) = 0 := by
    unfold finishRules rule1Scale rule2Scale rule3Scale
    ext <;> simp
  rw [hfin, zero_add]
  exact clampSpeed_of_le (by
    unfold maxSpeed
    refine le_of_lt ((Vec3.len_lt_iff _ one_pos).mpr ?_)
    simp)

theorem c1_pos_scattered :
    (stepSimulationScatteredGrid 2 1 c1Arr c1State0).pos 0 = ⟨-94.9, 0, 0⟩ := by
  show kernUpdatePos 2 1 c1State0.pos (scatteredVelBuf 2 c1Arr c1State0) 0 = _
  unfold kernUpdatePos
  rw [if_pos ⟨le_refl 0, by norm_num⟩]
  rw [c1_pos0, show scatteredVelBuf 2 c1Arr c1State0 0 = 0 from c1_vel_scattered]
  rw [show (⟨-94.9, 0, 0⟩ : Vec3) + (0 : Vec3) * (1 : ℝ) = ⟨-94.9, 0, 0⟩ from by
    ext <;> simp]
  unfold wrapVec
  rw [wrapCoord_of_mem (by unfold scene_scale; norm_num) (by unfold scene_scale; norm_num),
    wrapCoord_of_mem (by unfold scene_scale; norm_num) (by unfold scene_scale; norm_num)]

theorem c1_dist_qp : Vec3.dist ⟨-95.1, 0, 0⟩ ⟨-94.9, 0, 0⟩ < rule2Distance := by
  unfold rule2Distance
  rw [Vec3.dist_lt_iff _ _ (by norm_num : (0 : ℝ) < 3)]
  norm_num

theorem c1_acc_brute : bruteAcc 2 0 c1State0.pos c1State0.vel =
    ⟨⟨-190, 0, 0⟩, 2, ⟨0.2, 0, 0⟩, 0, 2⟩ := by
  unfold bruteAcc
  rw [show intRange 0 2 = [0, 1] from by decide]
  rw [List.foldl_cons, List.foldl_cons, List.foldl_nil]
  rw [c1_pos0, c1_pos1, show c1State0.vel 0 = 0 from rfl,
    show c1State0.vel 1 = 0 from rfl]
  rw [ruleStep_self, ruleStep_near _ _ _ _ c1_dist_qp]
  unfold accZero
  simp only [RuleAcc.mk.injEq]
  refine ⟨?_, by norm_num, ?_, by simp, by norm_num⟩
  · ext <;> simp <;> norm_num
  · ext <;> simp <;> norm_num

theorem c1_kern_brute :
    kernUpdateVelocityBruteForce 2 c1State0.pos c1State0.vel 0 = ⟨0.019, 0, 0⟩ := by
  unfold kernUpdateVelocityBruteForce computeVelocityChange
  rw [c1_acc_brute, c1_pos0, show c1State0.vel 0 = 0 from rfl]
  have hfin : finishRules ⟨⟨-190, 0, 0⟩, 2, ⟨0.2, 0, 0⟩, 0, 2⟩
      (⟨-94.9, 0, 0⟩ : Vec3) = ⟨0.019, 0, 0⟩ := by
    unfold finishRules rule1Scale rule2Scale rule3Scale
    ext <;> simp <;> norm_num
  rw [hfin, zero_add]
  exact clampSpeed_of_le (by
    unfold maxSpeed
    refine le_of_lt ((Vec3.len_lt_iff _ one_pos).mpr ?_)
    norm_num)

theorem c1_vel_brute :
    (stepSimulationNaive 2 1 c1State0).vel 0 = ⟨0.019, 0, 0⟩ := by
  show (if (0 : ℤ) ≤ 0 ∧ (0 : ℤ) < 2 then
    kernUpdateVelocityBruteForce 2 c1State0.pos c1State0.vel 0
    else c1State0.vel 0) = _
  rw [if_pos ⟨le_refl 0, by norm_num⟩]
  exact c1_kern_brute

theorem c1_pos_brute :
    (stepSimulationNaive 2 1 c1State0).pos 0 = ⟨-94.881, 0, 0⟩ := by
  show kernUpdatePos 2 1 c1State0.pos _ 0 = _
  unfold kernUpdatePos
  rw [if_pos ⟨le_refl 0, by norm_num⟩]
  rw [c1_pos0, c1_kern_brute]
  rw [show (⟨-94.9, 0, 0⟩ : Vec3) + (⟨0.019, 0, 0⟩ : Vec3) * (1 : ℝ) =
      ⟨-94.881, 0, 0⟩ from by ext <;> simp <;> norm_num]
  unfold wrapVec
  rw [wrapCoord_of_mem (by unfold scene_scale; norm_num) (by unfold scene_scale; norm_num),
    wrapCoord_of_mem (by unfold scene_scale; norm_num) (by unfold scene_scale; norm_num)]

theorem c1_sorted : IsSortedArrangement 2 (fun b => cellIdOf (c1State0.pos b)) c1Arr := by
  refine ⟨fun s h1 h2 => ?_, fun s t h1 h2 h3 h4 h => ?_, fun b h1 h2 => ?_,
    fun s t h1 h2 h3 => ?_⟩
  · simp only [c1Arr]; omega
  · simp only [c1Arr] at h; omega
  · refine ⟨1 - b, by omega, by omega, ?_⟩
    simp only [c1Arr]; omega
  · have hs : s = 0 ∨ s = 1 := by omega
    have ht : t = 0 ∨ t = 1 := by omega
    have e0 : cellIdOf (c1State0.pos (c1Arr 0)) = 5060 := c1_sk0
    have e1 : cellIdOf (c1State0.pos (c1Arr 1)) = 5061 := c1_sk1
    rcases hs with h | h <;> rcases ht with h' | h' <;> subst h <;> subst h'
    · exact le_refl _
    · show cellIdOf (c1State0.pos (c1Arr 0)) ≤ cellIdOf (c1State0.pos (c1Arr 1))
      rw [e0, e1]; norm_num
    · exact absurd h2 (by norm_num)
    · exact le_refl _

/-- C1 (code bug): the `-0.5`-shifted binning is applied both when
storing boids into cells and when choosing the `{0,1}³` search block, so
an agent in the lower half of its (shifted) cell never searches the cell
below it.  Concretely: boids 0.2 apart straddling the shifted boundary
at `x = -95` are within every interaction radius, yet the scattered grid
step finds no neighbor except self for boid 0 while the brute-force step
finds both.  The resulting velocities (and hence positions) differ by
0.019 — far beyond the claim's 1e-4 tolerance. -/
theorem C1_brute_vs_grid_divergence :
    IsSortedArrangement 2 (fun b => cellIdOf (c1State0.pos b)) c1Arr ∧
    (stepSimulationNaive 2 1 c1State0).vel 0 = ⟨0.019, 0, 0⟩ ∧
    (stepSimulationScatteredGrid 2 1 c1Arr c1State0).vel 0 = 0 ∧
    (stepSimulationNaive 2 1 c1State0).pos 0 = ⟨-94.881, 0, 0⟩ ∧
    (stepSimulationScatteredGrid 2 1 c1Arr c1State0).pos 0 = ⟨-94.9, 0, 0⟩ ∧
    ¬(|((stepSimulationNaive 2 1 c1State0).vel 0).x -
        ((stepSimulationScatteredGrid 2 1 c1Arr c1State0).vel 0).x| ≤ 1 / 10000) ∧
    ¬(|((stepSimulationNaive 2 1 c1State0).pos 0).x -
        ((stepSimulationScatteredGrid 2 1 c1Arr c1State0).pos 0).x| ≤ 1 / 10000) := by
  refine ⟨c1_sorted, c1_vel_brute, c1_vel_scattered, c1_pos_brute, c1_pos_scattered,
    ?_, ?_⟩
  · rw [c1_vel_brute, c1_vel_scattered]
    simp only [Vec3.mk_x, Vec3.zero_x]
    rw [show (0.019 : ℝ) - 0 = 0.019 from by norm_num,
      abs_of_nonneg (by norm_num : (0 : ℝ) ≤ 0.019)]
    norm_num
  · rw [c1_pos_brute, c1_pos_scattered]
    simp only [Vec3.mk_x]
    rw [show (-94.881 : ℝ) - -94.9 = 0.019 from by norm_num,
      abs_of_nonneg (by norm_num : (0 : ℝ) ≤ 0.019)]
    norm_num

end Boids
